import Mathlib

/-!
Shallow embedding of the public-comment-analysis core pipeline:
the work-range calculator (WorkPlanner), the batch checker
(BatchCoordinator), the processor worker, and the combiner (Aggregator),
together with theorems about their behaviour.
-/

/-! ## Work-range calculator (src/lambda/work-range-calculator/index.py) -/

/-- A checkpoint record as stored per (workerId, pageNumber):
`completed` flag plus a `comment_offset`. -/
structure Checkpoint where
  completed : Bool
  comment_offset : Nat
deriving Repr, DecidableEq

/-- One work item emitted by `calculate_work_batches` (a Python dict in the
source; optional keys `isReprocessing` / `hasCheckpoint` are represented with
`false` defaults, `commentOffset` with default 0). -/
structure WorkerRange where
  batchId : Nat
  workerId : Nat
  pageNumber : Nat
  pageSize : Nat
  expectedComments : Nat
  setNumber : Nat
  isReprocessing : Bool := false
  hasCheckpoint : Bool := false
  commentOffset : Nat := 0
deriving Repr, DecidableEq

/-- A batch of work items. -/
structure Batch where
  batchId : Nat
  workers : List WorkerRange
  expectedWorkers : Nat
  setNumber : Nat
  isReprocessing : Bool := false
deriving Repr, DecidableEq

/-- The result dictionary of `calculate_work_batches`. -/
structure WorkBatchesResult where
  batches : List Batch
  totalBatches : Nat
  totalWorkers : Nat
  workersPerBatch : Nat
  totalComments : Nat
  pageSize : Nat
  expectedSets : Nat
  commentsPerSet : Nat
  isReprocessing : Bool := false
deriving Repr, DecidableEq

/-- An entry of the `reprocess_items` argument: the code reads the
`workerId` and `pageNumber` keys. -/
structure ReprocessItem where
  workerId : Nat
  pageNumber : Nat
deriving Repr, DecidableEq

/-- `math.ceil(a / b)` on nonnegative integers with `b > 0`. -/
def ceilDiv (a b : Nat) : Nat := (a + b - 1) / b

/-- The test the source applies to a checkpoint:
`if checkpoint and checkpoint.get('completed', False)`. -/
def checkpointCompleted : Option Checkpoint → Bool
  | some c => c.completed
  | none => false

/-- Mutable state of the planning loops: the accumulated `batches` list and
the `current_worker_id` / `global_batch_id` counters. -/
structure PlanState where
  batches : List Batch
  current_worker_id : Nat
  global_batch_id : Nat
deriving Repr, DecidableEq

/-- Body of the innermost loop (`for i in range(workers_in_batch)`) of
`calculate_work_batches`, processing one candidate page: compute
`expected_comments`, consult the checkpoint, and either skip (advancing the
worker counter) or append a work item. The accumulator is the pair
(`batch_workers`, `current_worker_id`). -/
def plan_inner (getCheckpoint : Nat → Nat → Option Checkpoint)
    (remaining_comments max_page_size current_set global_batch_id : Nat)
    (page_number : Nat) (acc : List WorkerRange × Nat) :
    List WorkerRange × Nat :=
  let batch_workers := acc.1
  let current_worker_id := acc.2
  let expected_comments :=
    min max_page_size (remaining_comments - (page_number - 1) * max_page_size)
  if 0 < expected_comments then
    let checkpoint := getCheckpoint current_worker_id page_number
    if checkpointCompleted checkpoint then
      (batch_workers, current_worker_id + 1)
    else
      let wr : WorkerRange :=
        { batchId := global_batch_id
          workerId := current_worker_id
          pageNumber := page_number
          pageSize := max_page_size
          expectedComments := expected_comments
          setNumber := current_set
          hasCheckpoint := checkpoint.isSome
          commentOffset := (checkpoint.map (·.comment_offset)).getD 0 }
      (batch_workers ++ [wr], current_worker_id + 1)
  else
    (batch_workers, current_worker_id)

/-- Body of the middle loop (`for local_batch_id in range(total_batches_for_set)`):
run the inner loop over the pages of one batch and append the batch to the
state when it is nonempty. -/
def plan_batch (getCheckpoint : Nat → Nat → Option Checkpoint)
    (remaining_comments max_page_size current_set workers_per_batch pages_needed : Nat)
    (local_batch_id : Nat) (st : PlanState) : PlanState :=
  let base_page := local_batch_id * workers_per_batch + 1
  let remaining_pages := pages_needed - local_batch_id * workers_per_batch
  let workers_in_batch := min workers_per_batch remaining_pages
  let inner :=
    (List.range workers_in_batch).foldl
      (fun acc i =>
        plan_inner getCheckpoint remaining_comments max_page_size current_set
          st.global_batch_id (base_page + i) acc)
      ([], st.current_worker_id)
  if inner.1 = [] then
    { batches := st.batches
      current_worker_id := inner.2
      global_batch_id := st.global_batch_id }
  else
    { batches := st.batches ++
        [{ batchId := st.global_batch_id
           workers := inner.1
           expectedWorkers := inner.1.length
           setNumber := current_set }]
      current_worker_id := inner.2
      global_batch_id := st.global_batch_id + 1 }

/-- Body of the outer loop (`for current_set in range(1, total_sets + 1)`):
compute the remaining comments and pages of the set, then run the batch loop. -/
def plan_set (getCheckpoint : Nat → Nat → Option Checkpoint)
    (total_comments workers_per_batch max_page_size : Nat)
    (current_set : Nat) (st : PlanState) : PlanState :=
  let max_pages_per_set := 20
  let comments_per_set := max_pages_per_set * max_page_size
  let remaining_comments :=
    min comments_per_set (total_comments - (current_set - 1) * comments_per_set)
  let pages_needed := ceilDiv remaining_comments max_page_size
  let total_batches_for_set := ceilDiv pages_needed workers_per_batch
  (List.range total_batches_for_set).foldl
    (fun s b =>
      plan_batch getCheckpoint remaining_comments max_page_size current_set
        workers_per_batch pages_needed b s)
    st

/-- `calculate_work_batches`. The DynamoDB checkpoint lookup
(`get_checkpoint(document_id, worker_id, page_number)`) is abstracted into
the function argument `getCheckpoint : workerId → pageNumber → Option Checkpoint`
(the `document_id` is fixed for one call). -/
def calculate_work_batches (getCheckpoint : Nat → Nat → Option Checkpoint)
    (total_comments : Nat) (workers_per_batch : Nat) (max_page_size : Nat)
    (reprocess_items : Option (List ReprocessItem)) : WorkBatchesResult :=
  match reprocess_items with
  | some items =>
    if items.length > 0 then
      let reprocess_workers : List WorkerRange := items.map fun item =>
        { batchId := 0
          workerId := item.workerId
          pageNumber := item.pageNumber
          pageSize := max_page_size
          expectedComments := max_page_size
          setNumber := 1
          isReprocessing := true }
      let batches : List Batch :=
        [{ batchId := 0
           workers := reprocess_workers
           expectedWorkers := reprocess_workers.length
           setNumber := 1
           isReprocessing := true }]
      { batches := batches
        totalBatches := 1
        totalWorkers := reprocess_workers.length
        workersPerBatch := reprocess_workers.length
        totalComments := total_comments
        pageSize := max_page_size
        expectedSets := 1
        commentsPerSet := total_comments
        isReprocessing := true }
    else
      calculate_work_batches_normal getCheckpoint total_comments
        workers_per_batch max_page_size
  | none =>
    calculate_work_batches_normal getCheckpoint total_comments
      workers_per_batch max_page_size
where
  /-- The normal (non-reprocessing) planning path. -/
  calculate_work_batches_normal
      (getCheckpoint : Nat → Nat → Option Checkpoint)
      (total_comments workers_per_batch max_page_size : Nat) :
      WorkBatchesResult :=
    let max_pages_per_set := 20
    let comments_per_set := max_pages_per_set * max_page_size
    let total_sets := ceilDiv total_comments comments_per_set
    let final :=
      (List.range total_sets).foldl
        (fun st s =>
          plan_set getCheckpoint total_comments workers_per_batch max_page_size
            (s + 1) st)
        ⟨[], 0, 0⟩
    { batches := final.batches
      totalBatches := final.batches.length
      totalWorkers := final.current_worker_id
      workersPerBatch := workers_per_batch
      totalComments := total_comments
      pageSize := max_page_size
      expectedSets := total_sets
      commentsPerSet := comments_per_set }

/-- The empty checkpoint store: every lookup misses. -/
def noCheckpoints : Nat → Nat → Option Checkpoint := fun _ _ => none

/-- All work items of a planning result, in batch order. -/
def allWorkers (r : WorkBatchesResult) : List WorkerRange :=
  r.batches.flatMap (·.workers)

/-- The comments remaining for set `s` (1-based):
`min(comments_per_set, total - (s-1)*comments_per_set)` with
`comments_per_set = 20 * max_page_size`. -/
def remInSet (N P s : Nat) : Nat := min (20 * P) (N - (s - 1) * (20 * P))

/-- Pages needed by set `s`. -/
def pagesInSet (N P s : Nat) : Nat := ceilDiv (remInSet N P s) P

/-- Total pages of the first `n` sets. -/
def sumPagesUpTo (N P n : Nat) : Nat :=
  ((List.range n).map (fun t => pagesInSet N P (t + 1))).sum

/-- The (setNumber, pageNumber, workerId, expectedComments) projection of a
work item. -/
def projItem (w : WorkerRange) : Nat × Nat × Nat × Nat :=
  (w.setNumber, w.pageNumber, w.workerId, w.expectedComments)

/-- Closed-form description of the batches produced for set `s` when no
checkpoints exist, starting from batch counter `gb` and worker counter `cw`. -/
def setBatches (N P W s gb cw : Nat) : List Batch :=
  (List.range (ceilDiv (pagesInSet N P s) W)).map (fun b =>
    { batchId := gb + b
      workers := (List.range (min W (pagesInSet N P s - b * W))).map (fun i =>
        { batchId := gb + b
          workerId := cw + b * W + i
          pageNumber := b * W + 1 + i
          pageSize := P
          expectedComments := min P (remInSet N P s - (b * W + i) * P)
          setNumber := s })
      expectedWorkers := min W (pagesInSet N P s - b * W)
      setNumber := s })

/-- Closed-form description of the (set, page, worker, expected) projections
of all items emitted with empty checkpoints. -/
def plannedProj (N P : Nat) : List (Nat × Nat × Nat × Nat) :=
  (List.range (ceilDiv N (20 * P))).flatMap (fun s0 =>
    (List.range (pagesInSet N P (s0 + 1))).map (fun k =>
      (s0 + 1, k + 1, sumPagesUpTo N P s0 + k,
        min P (remInSet N P (s0 + 1) - k * P))))

/-! ## Batch checker (src/lambda/batch-checker/index.py) -/

/-- A JSON-like value as found in worker result payloads. -/
inductive JVal where
  | null
  | bool (b : Bool)
  | num (n : Int)
  | str (s : String)
deriving Repr, DecidableEq

/-- A payload dictionary (a string-keyed JSON object). -/
abbrev Payload := List (String × JVal)

/-- `payload.get(key)`: the value at `key`, or `None` when absent. -/
def pget (p : Payload) (k : String) : Option JVal :=
  (p.find? (fun kv => kv.1 == k)).map (·.2)

/-- One entry of `batchResults`: an invocation result that may carry a
`Payload` (`result.get('Payload', {})`). -/
structure BatchResult where
  payload : Option Payload
deriving Repr, DecidableEq

/-- `check_for_incomplete_items`: collect the payloads whose `isComplete`
is exactly `False` or whose `needsReprocessing` is exactly `True`
(`payload.get('isComplete') is False or payload.get('needsReprocessing') is True`). -/
def check_for_incomplete_items (batch_results : List BatchResult) : List Payload :=
  if batch_results = [] then []
  else
    batch_results.foldl (fun incomplete_items result =>
      let payload := result.payload.getD []
      if pget payload "isComplete" = some (JVal.bool false)
          ∨ pget payload "needsReprocessing" = some (JVal.bool true) then
        incomplete_items ++ [payload]
      else incomplete_items) []

/-- Output of the batch-checker handler. `incompleteItems` and
`currentBatch` are present only in the reprocessing branch. -/
structure BatchCheckOutput where
  hasMoreBatches : Bool
  needsReprocessing : Bool
  incompleteItems : Option (List Payload)
  currentBatch : Option Int
deriving Repr, DecidableEq

/-- The batch-checker `lambda_handler`: `currentBatch`, `totalBatches` and
`batchResults` default to `0`, `0` and `[]` when absent from the event. -/
def batch_checker_handler (currentBatch totalBatches : Option Int)
    (batchResults : Option (List BatchResult)) : BatchCheckOutput :=
  let current_batch := currentBatch.getD 0
  let total_batches := totalBatches.getD 0
  let batch_results := batchResults.getD []
  let incomplete_items := check_for_incomplete_items batch_results
  let needs_reprocessing := incomplete_items.length > 0
  if needs_reprocessing then
    { hasMoreBatches := true
      needsReprocessing := true
      incompleteItems := some incomplete_items
      currentBatch := some current_batch }
  else
    { hasMoreBatches := decide (current_batch + 1 < total_batches)
      needsReprocessing := false
      incompleteItems := none
      currentBatch := none }

/-! ## Processor worker (src/lambda/processor/index.py) -/

/-- Outcome of one HTTP attempt inside `_make_request`: a parsed 200 body,
a 429 status, another non-200 status, or a transport-level `HTTPError`. -/
inductive ReqOutcome (α : Type) where
  | ok (v : α)
  | status429
  | statusOther
  | httpError
deriving Repr, DecidableEq

/-- How a request ultimately fails: the `RateLimitReached` exception or any
other exception. -/
inductive FetchErr where
  | rateLimited
  | other
deriving Repr, DecidableEq

/-- The retry loop of `_make_request` (`while retries < max_retries`),
with the attempt outcomes given by `attempts`: a 429 raises
`RateLimitReached` immediately (it is not an `HTTPError`, so it is never
retried); a non-200 status raises a plain exception immediately; an
`HTTPError` sleeps and retries while `retries < max_retries - 1` and
re-raises on the last attempt. The fuel equals the remaining iterations
`max_retries - retries`; an exhausted loop raises
"Max retries exceeded". -/
def make_request_loop {α : Type} (attempts : Nat → ReqOutcome α)
    (max_retries : Nat) : Nat → Nat → Except FetchErr α
  | 0, _ => .error .other
  | fuel + 1, retries =>
    match attempts retries with
    | .ok v => .ok v
    | .status429 => .error .rateLimited
    | .statusOther => .error .other
    | .httpError =>
      if retries < max_retries - 1 then
        make_request_loop attempts max_retries fuel (retries + 1)
      else .error .other

/-- `_make_request` with its default `max_retries = 3`. -/
def make_request {α : Type} (attempts : Nat → ReqOutcome α) : Except FetchErr α :=
  make_request_loop attempts 3 3 0

/-- A comment stub from the page listing: its id and
`attributes.lastModifiedDate` (which may be absent). -/
structure Stub where
  id : String
  lastModifiedDate : Option String
deriving Repr, DecidableEq

/-- Python truthiness of an optional string (`None` and `""` are falsy). -/
def truthy : Option String → Bool
  | some s => s != ""
  | none => false

/-- The per-comment detail loop of `fetch_comments_page`: fetch each
comment's detail; on success append it and track the maximum
`lastModifiedDate`; on `RateLimitReached` break, returning what was
fetched so far; on any other error continue with the next comment. -/
def fetch_details (detailAttempts : String → Nat → ReqOutcome String) :
    List Stub → List String → Option String → List String × Option String
  | [], acc, lpd => (acc, lpd)
  | c :: rest, acc, lpd =>
    match make_request (detailAttempts c.id) with
    | .ok d =>
      let comment_date := c.lastModifiedDate
      let lpd' :=
        if truthy comment_date then
          if !truthy lpd || decide (comment_date.getD "" > lpd.getD "") then
            comment_date
          else lpd
        else lpd
      fetch_details detailAttempts rest (acc ++ [d]) lpd'
    | .error .rateLimited => (acc, lpd)
    | .error .other => fetch_details detailAttempts rest acc lpd

/-- `fetch_comments_page`: fetch the page listing (a rate limit or other
failure there propagates to the caller), then run the per-comment detail
loop. Returns the detailed comments and the last processed date. -/
def fetch_comments_page (pageAttempts : Nat → ReqOutcome (List Stub))
    (detailAttempts : String → Nat → ReqOutcome String) :
    Except FetchErr (List String × Option String) :=
  match make_request pageAttempts with
  | .error e => .error e
  | .ok data => .ok (fetch_details detailAttempts data [] none)

/-- The fields of the processor `lambda_handler` result modelled here. -/
structure ProcessorResult where
  workerId : Nat
  pageNumber : Nat
  processedComments : Nat
  rateLimited : Bool
  isComplete : Bool
  lastProcessedDate : Option String
deriving Repr, DecidableEq

/-- The processor `lambda_handler`: only `RateLimitReached` from the page
fetch is caught (other exceptions propagate and fail the invocation); then
`last_processed_date` is overridden with the input marker unless
`page_number == 20`; finally the result record is returned with
`isComplete = not rate_limited`. -/
def processor_handler (pageAttempts : Nat → ReqOutcome (List Stub))
    (detailAttempts : String → Nat → ReqOutcome String)
    (worker_id page_number : Nat) (last_modified_date : Option String) :
    Except Unit ProcessorResult :=
  match fetch_comments_page pageAttempts detailAttempts with
  | .ok res =>
    let last_processed_date :=
      if page_number ≠ 20 then last_modified_date else res.2
    .ok { workerId := worker_id
          pageNumber := page_number
          processedComments := res.1.length
          rateLimited := false
          isComplete := true
          lastProcessedDate := last_processed_date }
  | .error .rateLimited =>
    let last_processed_date :=
      if page_number ≠ 20 then last_modified_date else none
    .ok { workerId := worker_id
          pageNumber := page_number
          processedComments := 0
          rateLimited := true
          isComplete := false
          lastProcessedDate := last_processed_date }
  | .error .other => .error ()

/-- The `lastModifiedDate` values observed by the detail loop: one per stub
whose detail fetch succeeds and whose date is present and non-empty. -/
def okDates (detailAttempts : String → Nat → ReqOutcome String)
    (stubs : List Stub) : List String :=
  stubs.filterMap (fun c =>
    match make_request (detailAttempts c.id), c.lastModifiedDate with
    | .ok _, some d => if d != "" then some d else none
    | _, _ => none)

/-! ## Combiner (src/lambda/combiner/index.py) -/

/-- Python's `str.split(sep)` on a single-character separator, over the
character list of the string: `"a_b".split("_") = ["a","b"]`,
`"a__b".split("_") = ["a","","b"]`, `"".split("_") = [""]`. -/
def pySplit (sep : Char) : List Char → List (List Char)
  | [] => [[]]
  | c :: rest =>
    let r := pySplit sep rest
    if c = sep then [] :: r
    else
      match r with
      | [] => [[c]]
      | h :: t => (c :: h) :: t

/-- Digit-by-digit accumulator for `int(...)`. -/
def pyParseNatAux : List Char → Nat → Option Nat
  | [], acc => some acc
  | c :: rest, acc =>
    if c.isDigit then pyParseNatAux rest (acc * 10 + (c.toNat - '0'.toNat))
    else none

/-- Python's `int(s)` on a plain decimal string: digits with an optional
leading minus sign; anything else raises `ValueError` (modelled as
`none`). -/
def pyParseInt : List Char → Option Int
  | [] => none
  | '-' :: rest =>
    match rest with
    | [] => none
    | _ => (pyParseNatAux rest 0).map (fun n => -(n : Int))
  | s => (pyParseNatAux s 0).map (fun n => (n : Int))

/-- A stored object as returned by the blob store listing. -/
structure S3Object where
  key : String
  size : Nat
deriving Repr, DecidableEq

/-- A parsed entry of the content-file list built by `get_content_files`
(`{'key', 'worker', 'page', 'size'}`; the `last_modified` field plays no
role downstream and is omitted). -/
structure ContentFile where
  key : String
  worker : Int
  page : Int
  size : Nat
deriving Repr, DecidableEq

/-- Parse one listed object as `get_content_files` does: keep `.csv` keys
whose filename (last `/`-segment) starts with `worker_`, reading
`parts[1]` and `parts[3]` of the `_`-split filename as integers;
`IndexError` and `ValueError` (missing parts, non-numeric parts) skip the
file. -/
def parseContentFile (obj : S3Object) : Option ContentFile :=
  let keyChars := obj.key.toList
  if List.isSuffixOf ".csv".toList keyChars then
    let filename := (pySplit '/' keyChars).getLastD []
    if List.isPrefixOf "worker_".toList filename then
      let parts := pySplit '_' filename
      match (parts[1]?).bind pyParseInt, (parts[3]?).bind pyParseInt with
      | some w, some p =>
        some { key := obj.key, worker := w, page := p, size := obj.size }
      | _, _ => none
    else none
  else none

/-- The sort key of `get_content_files`: `(page, worker)` ascending. -/
def pwLe (a b : ContentFile) : Prop :=
  a.page < b.page ∨ (a.page = b.page ∧ a.worker ≤ b.worker)

instance : DecidableRel pwLe := fun a b => by
  unfold pwLe
  infer_instance

instance : IsTotal ContentFile pwLe := ⟨by
  intro a b
  unfold pwLe
  omega⟩

instance : IsTrans ContentFile pwLe := ⟨by
  intro a b c
  unfold pwLe
  omega⟩

/-- `get_content_files`: parse the listing in order and stable-sort by
`(page, worker)` (Python's `sorted` with that key). -/
def get_content_files (objects : List S3Object) : List ContentFile :=
  List.insertionSort pwLe (objects.filterMap parseContentFile)

/-- One CSV shard as seen by `combine_csv_files`: its header row and its
data rows (each row aligned with the header). -/
structure CSVFile where
  header : List String
  rows : List (List String)
deriving Repr, DecidableEq

/-- `DictReader`/`DictWriter` field lookup: the value of column `f` in row
`r` keyed by header `H`, with `''` when the column is missing
(`DictWriter`'s `restval`). -/
def rowLookup (H : List String) (r : List String) (f : String) : String :=
  (((H.zip r).find? (fun kv => kv.1 == f)).map (·.2)).getD ""

/-- `DictWriter.writerow` with fieldnames `F` on a row keyed by `H`:
raises `ValueError` when the row has a key outside `F`, else writes the
values in `F` order. -/
def writerow (F H : List String) (r : List String) : Except Unit (List String) :=
  if H.all (fun h => F.contains h) then .ok (F.map (rowLookup H r)) else .error ()

/-- Write one shard's rows until the first `writerow` error; the error is
caught by the per-file `except`, skipping the rest of that shard. -/
def writeRows (F H : List String) : List (List String) → List (List String)
  | [] => []
  | r :: rs =>
    match writerow F H r with
    | .ok out => out :: writeRows F H rs
    | .error _ => []

/-- State of the combine loop: the writer's fieldnames (fixed by the first
shard), the rows written so far, and the running row total. -/
structure CombineState where
  fieldnames : Option (List String)
  out_rows : List (List String)
  total_rows : Nat
deriving Repr, DecidableEq

/-- `combine_csv_files`: the first shard's header fixes the output
fieldnames; each shard's row count is added to the total before writing;
a `writerow` error (header mismatch) is caught, skipping the rest of that
shard and continuing with the next file; the merge itself never raises. -/
def combine_csv_files (files : List CSVFile) : CombineState :=
  files.foldl (fun st f =>
    let F := st.fieldnames.getD f.header
    { fieldnames := some F
      out_rows := st.out_rows ++ writeRows F f.header f.rows
      total_rows := st.total_rows + f.rows.length })
    ⟨none, [], 0⟩

/-! ## Arithmetic facts about `ceilDiv` -/

theorem cdiv_zero {P : Nat} (hP : 0 < P) : ceilDiv 0 P = 0 := by
  unfold ceilDiv
  rw [Nat.zero_add]
  exact Nat.div_eq_of_lt (by omega)

theorem cdiv_lt_iff {P : Nat} (hP : 0 < P) (k r : Nat) :
    k < ceilDiv r P ↔ k * P < r := by
  unfold ceilDiv
  have h : k + 1 ≤ (r + P - 1) / P ↔ (k + 1) * P ≤ r + P - 1 :=
    Nat.le_div_iff_mul_le hP
  rw [Nat.succ_mul] at h
  constructor
  · intro hk
    have := h.1 hk
    omega
  · intro hk
    have := h.2 (by omega)
    omega

theorem cdiv_mul_ge {P : Nat} (hP : 0 < P) (r : Nat) : r ≤ ceilDiv r P * P := by
  by_contra h
  push_neg at h
  have := (cdiv_lt_iff hP (ceilDiv r P) r).2 h
  omega

theorem cdiv_sub {P : Nat} (hP : 0 < P) (r : Nat) :
    ceilDiv (r - P) P = ceilDiv r P - 1 := by
  rcases Nat.le_total r P with h | h
  · have h1 : r - P = 0 := by omega
    rw [h1, cdiv_zero hP]
    rcases Nat.eq_zero_or_pos r with h0 | hpos
    · subst h0; rw [cdiv_zero hP]
    · have hge : 0 < ceilDiv r P := by
        have := (cdiv_lt_iff hP 0 r).2 (by omega)
        omega
      have hle : ¬ 1 < ceilDiv r P := by
        intro hlt
        have := (cdiv_lt_iff hP 1 r).1 hlt
        omega
      omega
  · have e1 : r - P + P - 1 = r - 1 := by omega
    have e2 : r + P - 1 = (r - 1) + P := by omega
    unfold ceilDiv
    rw [e1, e2, Nat.add_div_right _ hP]
    exact (Nat.add_sub_cancel _ _).symm

theorem cdiv_pos_split {P : Nat} (hP : 0 < P) (r : Nat) (hr : 0 < r) :
    ceilDiv r P = ceilDiv (r - P) P + 1 := by
  have h1 := cdiv_sub hP r
  have h2 : 0 < ceilDiv r P := by
    have := (cdiv_lt_iff hP 0 r).2 (by omega)
    omega
  omega

theorem cdiv_add_mul {P : Nat} (hP : 0 < P) (a b : Nat) :
    ceilDiv (a + b * P) P = ceilDiv a P + b := by
  unfold ceilDiv
  have e : a + b * P + P - 1 = (a + P - 1) + b * P := by omega
  rw [e, Nat.add_mul_div_right _ _ hP]

theorem cdiv_mul_self {P : Nat} (hP : 0 < P) (m : Nat) :
    ceilDiv (m * P) P = m := by
  have h := cdiv_add_mul hP 0 m
  rw [Nat.zero_add] at h
  rw [h, cdiv_zero hP]
  exact Nat.zero_add m

/-- Splitting a quantity `rem` into pages of size at most `P`:
the page sizes `min P (rem - k * P)` over all `ceil(rem / P)` pages sum
back to `rem`. -/
theorem sum_min_chunks {P : Nat} (hP : 0 < P) :
    ∀ rem : Nat,
      ((List.range (ceilDiv rem P)).map (fun k => min P (rem - k * P))).sum = rem := by
  intro rem
  induction rem using Nat.strong_induction_on with
  | _ rem ih =>
    rcases Nat.eq_zero_or_pos rem with h0 | hpos
    · subst h0; rw [cdiv_zero hP]; simp
    · rw [cdiv_pos_split hP rem hpos, List.range_succ_eq_map]
      simp only [List.map_cons, List.map_map, List.sum_cons]
      have htail :
          List.map ((fun k => min P (rem - k * P)) ∘ Nat.succ)
              (List.range (ceilDiv (rem - P) P))
            = List.map (fun k => min P (rem - P - k * P))
              (List.range (ceilDiv (rem - P) P)) := by
        apply List.map_congr_left
        intro a _
        simp only [Function.comp_apply, Nat.succ_mul]
        congr 1
        omega
      rw [htail, ih (rem - P) (by omega)]
      simp only [Nat.zero_mul, Nat.sub_zero]
      omega

/-- Splitting `N` into sets of size `m * P` and each set into pages of size
`P`: the page counts per set sum to `ceil(N / P)`. -/
theorem sum_set_pages {P : Nat} (hP : 0 < P) (m : Nat) (hm : 0 < m) :
    ∀ N : Nat,
      ((List.range (ceilDiv N (m * P))).map
          (fun s0 => ceilDiv (min (m * P) (N - s0 * (m * P))) P)).sum
        = ceilDiv N P := by
  intro N
  have hmP : 0 < m * P := Nat.mul_pos hm hP
  induction N using Nat.strong_induction_on with
  | _ N ih =>
    rcases Nat.eq_zero_or_pos N with h0 | hpos
    · subst h0
      rw [cdiv_zero hmP, cdiv_zero hP]
      simp
    · rw [cdiv_pos_split hmP N hpos, List.range_succ_eq_map]
      simp only [List.map_cons, List.map_map, List.sum_cons]
      have htail :
          List.map ((fun s0 => ceilDiv (min (m * P) (N - s0 * (m * P))) P) ∘ Nat.succ)
              (List.range (ceilDiv (N - m * P) (m * P)))
            = List.map (fun s0 => ceilDiv (min (m * P) (N - m * P - s0 * (m * P))) P)
              (List.range (ceilDiv (N - m * P) (m * P))) := by
        apply List.map_congr_left
        intro a _
        simp only [Function.comp_apply, Nat.succ_mul]
        congr 2
        omega
      rw [htail, ih (N - m * P) (by omega)]
      simp only [Nat.zero_mul, Nat.sub_zero]
      rcases Nat.le_total N (m * P) with hle | hge
      · rw [Nat.min_eq_right hle, show N - m * P = 0 by omega, cdiv_zero hP]
        omega
      · rw [Nat.min_eq_left hge]
        have e : N - m * P + m * P = N := by omega
        have h2 := cdiv_add_mul hP (N - m * P) m
        rw [e] at h2
        rw [cdiv_mul_self hP]
        omega

/-- Flattening chunks of size up to `W` taken from `List.range pages`
reassembles the whole range. -/
theorem range_chunk {α : Type} {W : Nat} (hW : 0 < W) :
    ∀ (pages : Nat) (f : Nat → α),
      (List.range (ceilDiv pages W)).flatMap
          (fun b => (List.range (min W (pages - b * W))).map (fun i => f (b * W + i)))
        = (List.range pages).map f := by
  intro pages
  induction pages using Nat.strong_induction_on with
  | _ pages ih =>
    intro f
    rcases Nat.eq_zero_or_pos pages with h0 | hpos
    · subst h0; rw [cdiv_zero hW]; simp
    · rw [cdiv_pos_split hW pages hpos, List.range_succ_eq_map,
        List.flatMap_cons, List.flatMap_map]
      have htail :
          (List.range (ceilDiv (pages - W) W)).flatMap
              (fun a => (List.range (min W (pages - Nat.succ a * W))).map
                (fun i => f (Nat.succ a * W + i)))
            = (List.range (ceilDiv (pages - W) W)).flatMap
              (fun b => (List.range (min W (pages - W - b * W))).map
                (fun i => (fun k => f (W + k)) (b * W + i))) := by
        apply congrArg List.flatten
        apply List.map_congr_left
        intro a _
        have e1 : min W (pages - Nat.succ a * W) = min W (pages - W - a * W) := by
          rw [Nat.succ_mul]; omega
        rw [e1]
        apply List.map_congr_left
        intro i _
        have e2 : Nat.succ a * W + i = W + (a * W + i) := by
          rw [Nat.succ_mul]; omega
        rw [e2]
      rw [htail, ih (pages - W) (by omega) (fun k => f (W + k))]
      simp only [Nat.zero_mul, Nat.sub_zero]
      rcases Nat.le_total pages W with hle | hge
      · rw [Nat.min_eq_right hle, show pages - W = 0 by omega]
        simp
      · rw [Nat.min_eq_left hge]
        have e : pages = W + (pages - W) := by omega
        conv_rhs => rw [e, List.range_add, List.map_append, List.map_map]
        simp only [Nat.zero_add, Function.comp_def]

/-! ## Characterization of the planner with empty checkpoints -/

/-- With no checkpoint, a page with positive `expected_comments` is emitted
and the worker counter advances. -/
theorem plan_inner_emit (rem P s gb p : Nat) (ws : List WorkerRange) (cw : Nat)
    (hpos : 0 < min P (rem - (p - 1) * P)) :
    plan_inner noCheckpoints rem P s gb p (ws, cw)
      = (ws ++ [{ batchId := gb, workerId := cw, pageNumber := p, pageSize := P,
                  expectedComments := min P (rem - (p - 1) * P), setNumber := s }],
         cw + 1) := by
  simp only [plan_inner]
  rw [if_pos hpos]
  rfl

/-- Unfolding the innermost loop of the planner with empty checkpoints:
all pages `base+1 .. base+w` are emitted in order with consecutive worker
ids. -/
theorem inner_fold_nc (rem P s gb base : Nat) :
    ∀ (w : Nat) (ws : List WorkerRange) (cw : Nat),
      (∀ i, i < w → 0 < min P (rem - (base + i) * P)) →
      (List.range w).foldl
          (fun acc i => plan_inner noCheckpoints rem P s gb (base + 1 + i) acc)
          (ws, cw)
        = (ws ++ (List.range w).map (fun i =>
            { batchId := gb, workerId := cw + i, pageNumber := base + 1 + i,
              pageSize := P, expectedComments := min P (rem - (base + i) * P),
              setNumber := s }),
           cw + w) := by
  intro w
  induction w with
  | zero => intro ws cw _; simp
  | succ n ihn =>
    intro ws cw hpos
    rw [List.range_succ, List.foldl_append,
      ihn ws cw (fun i hi => hpos i (by omega))]
    simp only [List.foldl_cons, List.foldl_nil]
    have e : base + 1 + n - 1 = base + n := by omega
    rw [plan_inner_emit rem P s gb (base + 1 + n) _ _ (by rw [e]; exact hpos n (by omega))]
    rw [e, List.map_append, List.append_assoc]
    simp [Nat.add_assoc]

/-- Unfolding the batch loop body with empty checkpoints: batch
`local_batch_id` of a set covers pages `l*W+1 .. l*W+min W (pages - l*W)`. -/
theorem plan_batch_nc {P W : Nat} (hP : 0 < P) (hW : 0 < W)
    (rem s pages l : Nat) (hpages : pages = ceilDiv rem P)
    (hl : l * W < pages) (st : PlanState) :
    plan_batch noCheckpoints rem P s W pages l st =
      { batches := st.batches ++
          [{ batchId := st.global_batch_id
             workers := (List.range (min W (pages - l * W))).map (fun i =>
               { batchId := st.global_batch_id
                 workerId := st.current_worker_id + i
                 pageNumber := l * W + 1 + i
                 pageSize := P
                 expectedComments := min P (rem - (l * W + i) * P)
                 setNumber := s })
             expectedWorkers := min W (pages - l * W)
             setNumber := s }]
        current_worker_id := st.current_worker_id + min W (pages - l * W)
        global_batch_id := st.global_batch_id + 1 } := by
  have hpos : ∀ i, i < min W (pages - l * W) → 0 < min P (rem - (l * W + i) * P) := by
    intro i hi
    have h1 : l * W + i < pages := by omega
    have h2 : (l * W + i) * P < rem := by
      rw [hpages] at h1
      exact (cdiv_lt_iff hP (l * W + i) rem).1 h1
    omega
  have hwib : 0 < min W (pages - l * W) := by omega
  simp only [plan_batch]
  rw [inner_fold_nc rem P s st.global_batch_id (l * W) (min W (pages - l * W))
    [] st.current_worker_id hpos]
  simp only [List.nil_append]
  split
  · next h =>
      exfalso
      rw [List.map_eq_nil_iff, List.range_eq_nil] at h
      omega
  · next h =>
      simp

/-- Unfolding the batch loop of one set with empty checkpoints, for the
first `n` batches. -/
theorem batch_fold_nc {P W : Nat} (hP : 0 < P) (hW : 0 < W)
    (rem s pages : Nat) (hpages : pages = ceilDiv rem P) :
    ∀ n, n ≤ ceilDiv pages W → ∀ st : PlanState,
      (List.range n).foldl
          (fun s' b => plan_batch noCheckpoints rem P s W pages b s') st =
        { batches := st.batches ++ (List.range n).map (fun b =>
            { batchId := st.global_batch_id + b
              workers := (List.range (min W (pages - b * W))).map (fun i =>
                { batchId := st.global_batch_id + b
                  workerId := st.current_worker_id + b * W + i
                  pageNumber := b * W + 1 + i
                  pageSize := P
                  expectedComments := min P (rem - (b * W + i) * P)
                  setNumber := s })
              expectedWorkers := min W (pages - b * W)
              setNumber := s })
          current_worker_id := st.current_worker_id + min pages (n * W)
          global_batch_id := st.global_batch_id + n } := by
  intro n
  induction n with
  | zero => intro _ st; simp
  | succ m ihm =>
    intro hm st
    rw [List.range_succ, List.foldl_append, ihm (by omega) st]
    simp only [List.foldl_cons, List.foldl_nil]
    have hmW : m * W < pages := (cdiv_lt_iff hW m pages).1 (by omega)
    have hmin : min pages (m * W) = m * W := by omega
    rw [hmin, plan_batch_nc hP hW rem s pages m hpages hmW]
    have e2 : m * W + min W (pages - m * W) = min pages ((m + 1) * W) := by
      have h3 : (m + 1) * W = m * W + W := Nat.succ_mul m W
      omega
    simp only [List.map_append, List.map_cons, List.map_nil, Nat.add_assoc,
      List.append_assoc]
    rw [← Nat.add_assoc st.current_worker_id (m * W) _, ← e2]
    simp [Nat.add_assoc]

/-- Unfolding one whole set of the planner with empty checkpoints. -/
theorem plan_set_nc {P W : Nat} (hP : 0 < P) (hW : 0 < W)
    (N s : Nat) (st : PlanState) :
    plan_set noCheckpoints N W P s st =
      { batches := st.batches ++
          setBatches N P W s st.global_batch_id st.current_worker_id
        current_worker_id := st.current_worker_id + pagesInSet N P s
        global_batch_id := st.global_batch_id + ceilDiv (pagesInSet N P s) W } := by
  simp only [plan_set]
  rw [batch_fold_nc hP hW (min (20 * P) (N - (s - 1) * (20 * P))) s
    (ceilDiv (min (20 * P) (N - (s - 1) * (20 * P))) P) rfl
    (ceilDiv (ceilDiv (min (20 * P) (N - (s - 1) * (20 * P))) P) W) le_rfl st]
  have hle : ceilDiv (min (20 * P) (N - (s - 1) * (20 * P))) P ≤
      ceilDiv (ceilDiv (min (20 * P) (N - (s - 1) * (20 * P))) P) W * W :=
    cdiv_mul_ge hW _
  have hmin : min (ceilDiv (min (20 * P) (N - (s - 1) * (20 * P))) P)
      (ceilDiv (ceilDiv (min (20 * P) (N - (s - 1) * (20 * P))) P) W * W)
      = ceilDiv (min (20 * P) (N - (s - 1) * (20 * P))) P := by omega
  rw [hmin]
  simp only [setBatches, pagesInSet, remInSet]

/-- Flattened, projected view of the batches of one set. -/
theorem setBatches_proj {P W : Nat} (hP : 0 < P) (hW : 0 < W)
    (N s gb cw : Nat) :
    ((setBatches N P W s gb cw).flatMap (·.workers)).map projItem
      = (List.range (pagesInSet N P s)).map (fun k =>
          (s, k + 1, cw + k, min P (remInSet N P s - k * P))) := by
  unfold setBatches
  rw [List.flatMap_map, List.map_flatMap]
  have hstep :
      (List.range (ceilDiv (pagesInSet N P s) W)).flatMap (fun b =>
          List.map projItem ((List.range (min W (pagesInSet N P s - b * W))).map
            (fun i =>
              ({ batchId := gb + b
                 workerId := cw + b * W + i
                 pageNumber := b * W + 1 + i
                 pageSize := P
                 expectedComments := min P (remInSet N P s - (b * W + i) * P)
                 setNumber := s } : WorkerRange))))
        = (List.range (ceilDiv (pagesInSet N P s) W)).flatMap (fun b =>
            (List.range (min W (pagesInSet N P s - b * W))).map (fun i =>
              (fun k => (s, k + 1, cw + k, min P (remInSet N P s - k * P)))
                (b * W + i))) := by
    apply congrArg List.flatten
    apply List.map_congr_left
    intro b _
    rw [List.map_map]
    apply List.map_congr_left
    intro i _
    simp only [Function.comp_apply, projItem]
    have e1 : b * W + 1 + i = b * W + i + 1 := by omega
    have e2 : cw + b * W + i = cw + (b * W + i) := by omega
    rw [e1, e2]
  rw [hstep, range_chunk hW (pagesInSet N P s)
    (fun k => (s, k + 1, cw + k, min P (remInSet N P s - k * P)))]

/-- One step of `sumPagesUpTo`. -/
theorem sumPagesUpTo_succ (N P n : Nat) :
    sumPagesUpTo N P (n + 1) = sumPagesUpTo N P n + pagesInSet N P (n + 1) := by
  unfold sumPagesUpTo
  rw [List.range_succ, List.map_append, List.sum_append]
  simp

/-- Unfolding the set loop of the planner with empty checkpoints: the
projected items and the worker counter after the first `n` sets. -/
theorem set_fold_nc {P W : Nat} (hP : 0 < P) (hW : 0 < W) (N : Nat) :
    ∀ (n : Nat) (st : PlanState),
      (((List.range n).foldl
            (fun acc s0 => plan_set noCheckpoints N W P (s0 + 1) acc) st).batches.flatMap
          (·.workers)).map projItem
          = (st.batches.flatMap (·.workers)).map projItem ++
            (List.range n).flatMap (fun s0 =>
              (List.range (pagesInSet N P (s0 + 1))).map (fun k =>
                (s0 + 1, k + 1, st.current_worker_id + sumPagesUpTo N P s0 + k,
                  min P (remInSet N P (s0 + 1) - k * P)))) ∧
        ((List.range n).foldl
            (fun acc s0 => plan_set noCheckpoints N W P (s0 + 1) acc) st).current_worker_id
          = st.current_worker_id + sumPagesUpTo N P n := by
  intro n
  induction n with
  | zero =>
    intro st
    simp [sumPagesUpTo]
  | succ m ihm =>
    intro st
    rw [List.range_succ, List.foldl_append]
    simp only [List.foldl_cons, List.foldl_nil]
    obtain ⟨ih1, ih2⟩ := ihm st
    rw [plan_set_nc hP hW N (m + 1)]
    constructor
    · simp only [List.flatMap_append, List.map_append]
      rw [ih1, setBatches_proj hP hW N (m + 1), ih2]
      rw [List.append_assoc]
      simp
    · simp only [ih2, sumPagesUpTo_succ]
      omega

/-- Projected items and worker total of the full normal-mode planner with
empty checkpoints. -/
theorem planner_nc_proj {P W : Nat} (hP : 0 < P) (hW : 0 < W) (N : Nat) :
    (allWorkers (calculate_work_batches noCheckpoints N W P none)).map projItem
        = plannedProj N P
      ∧ (calculate_work_batches noCheckpoints N W P none).totalWorkers
        = sumPagesUpTo N P (ceilDiv N (20 * P)) := by
  obtain ⟨h1, h2⟩ :=
    set_fold_nc hP hW N (ceilDiv N (20 * P)) (⟨[], 0, 0⟩ : PlanState)
  simp only [calculate_work_batches,
    calculate_work_batches.calculate_work_batches_normal, allWorkers]
  constructor
  · rw [h1]
    simp only [plannedProj]
    simp
  · rw [h2]
    simp

/-- The (set, page) pairs of the planned items are pairwise distinct. -/
theorem plannedProj_pairs_nodup {P : Nat} (N : Nat) :
    ((plannedProj N P).map (fun t => (t.1, t.2.1))).Nodup := by
  unfold plannedProj
  rw [List.map_flatMap]
  apply List.nodup_flatMap.2
  refine ⟨?_, ?_⟩
  · intro s0 _
    rw [List.map_map]
    refine List.Nodup.map ?_ (List.nodup_range _)
    intro a b hab
    simp only [Function.comp_apply, Prod.mk.injEq] at hab
    omega
  · refine (List.pairwise_lt_range _).imp ?_
    intro a b hab
    intro t ht1 ht2
    simp only [List.map_map, List.mem_map, Function.comp_apply,
      List.mem_range] at ht1 ht2
    obtain ⟨k1, _, e1⟩ := ht1
    obtain ⟨k2, _, e2⟩ := ht2
    rw [← e1] at e2
    simp only [Prod.mk.injEq] at e2
    omega

/-- The number of planned items is `ceil(N / P)`. -/
theorem plannedProj_length {P : Nat} (hP : 0 < P) (N : Nat) :
    (plannedProj N P).length = ceilDiv N P := by
  unfold plannedProj
  rw [List.length_flatMap]
  have hmap :
      List.map (List.length ∘ fun s0 =>
          (List.range (pagesInSet N P (s0 + 1))).map (fun k =>
            (s0 + 1, k + 1, sumPagesUpTo N P s0 + k,
              min P (remInSet N P (s0 + 1) - k * P))))
        (List.range (ceilDiv N (20 * P)))
        = List.map (fun s0 => ceilDiv (min (20 * P) (N - s0 * (20 * P))) P)
          (List.range (ceilDiv N (20 * P))) := by
    apply List.map_congr_left
    intro s0 _
    simp only [Function.comp_apply, List.length_map, List.length_range,
      pagesInSet, remInSet, Nat.add_sub_cancel]
  rw [hmap]
  exact sum_set_pages hP 20 (by omega) N

/-- Summing a flattened list of lists of naturals. -/
theorem sum_flatMap_nat {α : Type} (l : List α) (f : α → List Nat) :
    (l.flatMap f).sum = (l.map (fun a => (f a).sum)).sum := by
  induction l with
  | nil => simp
  | cons hd tl ih => simp [List.flatMap_cons, List.sum_append, ih]

/-- The expected counts of the planned items sum to `N`. -/
theorem plannedProj_sum {P : Nat} (hP : 0 < P) (N : Nat) :
    ((plannedProj N P).map (fun t => t.2.2.2)).sum = N := by
  unfold plannedProj
  rw [List.map_flatMap, sum_flatMap_nat]
  have hmap :
      List.map (fun s0 => (List.map (fun t => (t.2.2.2 : Nat))
          ((List.range (pagesInSet N P (s0 + 1))).map (fun k =>
            (s0 + 1, k + 1, sumPagesUpTo N P s0 + k,
              min P (remInSet N P (s0 + 1) - k * P))))).sum)
        (List.range (ceilDiv N (20 * P)))
        = List.map (fun s0 => min (20 * P) (N - s0 * (20 * P)))
          (List.range (ceilDiv N (20 * P))) := by
    apply List.map_congr_left
    intro s0 _
    rw [List.map_map]
    have hinner :
        List.map ((fun t => (t.2.2.2 : Nat)) ∘ fun k =>
            ((s0 + 1 : Nat), (k + 1 : Nat), sumPagesUpTo N P s0 + k,
              min P (remInSet N P (s0 + 1) - k * P)))
          (List.range (pagesInSet N P (s0 + 1)))
          = List.map (fun k => min P (remInSet N P (s0 + 1) - k * P))
            (List.range (pagesInSet N P (s0 + 1))) :=
      List.map_congr_left (fun k _ => rfl)
    rw [hinner]
    unfold pagesInSet
    rw [sum_min_chunks hP (remInSet N P (s0 + 1))]
    simp [remInSet]
  rw [hmap]
  exact sum_min_chunks (by omega) N

/-- Consecutive `range'` blocks flatten to one `range'`. -/
theorem flatMap_range'_consec (len : Nat → Nat) :
    ∀ T : Nat,
      (List.range T).flatMap (fun s0 =>
          List.range' (((List.range s0).map len).sum) (len s0))
        = List.range' 0 (((List.range T).map len).sum) := by
  intro T
  induction T with
  | zero => simp
  | succ m ih =>
    rw [List.range_succ, List.flatMap_append, ih]
    simp only [List.flatMap_cons, List.flatMap_nil, List.append_nil]
    have h := List.range'_append 0 (((List.range m).map len).sum) (len m) 1
    simp only [Nat.one_mul, Nat.zero_add] at h
    rw [h, List.map_append, List.sum_append]
    simp [Nat.add_comm]

/-- The worker ids of the planned items are exactly `0, 1, 2, …` in order. -/
theorem plannedProj_workerIds {P : Nat} (N : Nat) :
    (plannedProj N P).map (fun t => t.2.2.1)
      = List.range' 0 (sumPagesUpTo N P (ceilDiv N (20 * P))) := by
  unfold plannedProj
  rw [List.map_flatMap]
  have hmap :
      ∀ s0, List.map (fun t => (t.2.2.1 : Nat))
          ((List.range (pagesInSet N P (s0 + 1))).map (fun k =>
            (s0 + 1, k + 1, sumPagesUpTo N P s0 + k,
              min P (remInSet N P (s0 + 1) - k * P))))
        = List.range' (sumPagesUpTo N P s0) (pagesInSet N P (s0 + 1)) := by
    intro s0
    rw [List.map_map, List.range'_eq_map_range]
    apply List.map_congr_left
    intro k _
    rfl
  have hcong :
      (List.range (ceilDiv N (20 * P))).flatMap (fun s0 =>
          List.map (fun t => (t.2.2.1 : Nat))
            ((List.range (pagesInSet N P (s0 + 1))).map (fun k =>
              (s0 + 1, k + 1, sumPagesUpTo N P s0 + k,
                min P (remInSet N P (s0 + 1) - k * P)))))
        = (List.range (ceilDiv N (20 * P))).flatMap (fun s0 =>
            List.range' (((List.range s0).map
              (fun t => pagesInSet N P (t + 1))).sum) (pagesInSet N P (s0 + 1))) := by
    apply congrArg List.flatten
    apply List.map_congr_left
    intro s0 _
    rw [hmap s0]
    simp [sumPagesUpTo]
  rw [hcong, flatMap_range'_consec (fun t => pagesInSet N P (t + 1))
    (ceilDiv N (20 * P))]
  simp [sumPagesUpTo]

/-- C1: for every `totalRecords N ≥ 0`, `pageSize P > 0`, `workersPerBatch
W > 0`, with an empty checkpoint set, the work items emitted by
`calculate_work_batches` cover exactly `ceil(N/P)` distinct
(setNumber, pageNumber) pairs, each item carries a distinct workerId, the
sum of expectedComments over all emitted items equals `N`, and a page
covering the tail of its set carries the true remainder, never an
over-count. -/
theorem planner_partition_correct {N P W : Nat} (hP : 0 < P) (hW : 0 < W) :
    ((allWorkers (calculate_work_batches noCheckpoints N W P none)).map
        (fun i => (i.setNumber, i.pageNumber))).Nodup
      ∧ (allWorkers (calculate_work_batches noCheckpoints N W P none)).length
          = ceilDiv N P
      ∧ ((allWorkers (calculate_work_batches noCheckpoints N W P none)).map
          (·.expectedComments)).sum = N
      ∧ ((allWorkers (calculate_work_batches noCheckpoints N W P none)).map
          (·.workerId)).Nodup
      ∧ ∀ i ∈ allWorkers (calculate_work_batches noCheckpoints N W P none),
          remInSet N P i.setNumber ≤ i.pageNumber * P →
          i.expectedComments
            = remInSet N P i.setNumber - (i.pageNumber - 1) * P := by
  obtain ⟨hproj, _⟩ := planner_nc_proj hP hW N
  refine ⟨?_, ?_, ?_, ?_, ?_⟩
  · have h : (allWorkers (calculate_work_batches noCheckpoints N W P none)).map
        (fun i => (i.setNumber, i.pageNumber))
        = ((allWorkers (calculate_work_batches noCheckpoints N W P none)).map
            projItem).map (fun t => (t.1, t.2.1)) := by
      rw [List.map_map]
      rfl
    rw [h, hproj]
    exact plannedProj_pairs_nodup N
  · have h : (allWorkers (calculate_work_batches noCheckpoints N W P none)).length
        = ((allWorkers (calculate_work_batches noCheckpoints N W P none)).map
            projItem).length := (List.length_map _ _).symm
    rw [h, hproj]
    exact plannedProj_length hP N
  · have h : (allWorkers (calculate_work_batches noCheckpoints N W P none)).map
        (·.expectedComments)
        = ((allWorkers (calculate_work_batches noCheckpoints N W P none)).map
            projItem).map (fun t => t.2.2.2) := by
      rw [List.map_map]
      rfl
    rw [h, hproj]
    exact plannedProj_sum hP N
  · have h : (allWorkers (calculate_work_batches noCheckpoints N W P none)).map
        (·.workerId)
        = ((allWorkers (calculate_work_batches noCheckpoints N W P none)).map
            projItem).map (fun t => t.2.2.1) := by
      rw [List.map_map]
      rfl
    rw [h, hproj, plannedProj_workerIds]
    exact List.nodup_range' 0 _
  · intro i hi hle
    have hmem : projItem i ∈ plannedProj N P := by
      rw [← hproj]
      exact List.mem_map_of_mem projItem hi
    unfold plannedProj at hmem
    rw [List.mem_flatMap] at hmem
    obtain ⟨s0, _, hmem2⟩ := hmem
    rw [List.mem_map] at hmem2
    obtain ⟨k, hk, he⟩ := hmem2
    simp only [projItem, Prod.mk.injEq] at he
    obtain ⟨e1, e2, _, e4⟩ := he
    rw [← e1] at hle ⊢
    rw [← e2] at hle ⊢
    rw [← e4]
    have hk1 : (k + 1) * P = k * P + P := Nat.succ_mul k P
    simp only [Nat.add_sub_cancel]
    omega

theorem planner_partition_correct_witness :
    (allWorkers (calculate_work_batches noCheckpoints 520 2 250 none)).length
        = ceilDiv 520 250
      ∧ ((allWorkers (calculate_work_batches noCheckpoints 520 2 250 none)).map
          (·.expectedComments)).sum = 520 := by
  have h := planner_partition_correct (N := 520) (P := 250) (W := 2)
    (by decide) (by decide)
  exact ⟨h.2.1, h.2.2.1⟩

/-- C4: for every non-empty `reprocess_items` list, `calculate_work_batches`
returns exactly one batch whose workers are the given (workerId, pageNumber)
items in the given order, with totalBatches = 1 and totalWorkers equal to
the number of items, bypassing the normal set/page partition math. -/
theorem planner_reprocessing_mode (gc : Nat → Nat → Option Checkpoint)
    (tc W P : Nat) (items : List ReprocessItem) (h : items ≠ []) :
    (calculate_work_batches gc tc W P (some items)).batches
        = [{ batchId := 0
             workers := items.map (fun it =>
               { batchId := 0, workerId := it.workerId,
                 pageNumber := it.pageNumber, pageSize := P,
                 expectedComments := P, setNumber := 1, isReprocessing := true })
             expectedWorkers := items.length
             setNumber := 1
             isReprocessing := true }]
      ∧ ((calculate_work_batches gc tc W P (some items)).batches.flatMap
            (·.workers)).map (fun w => (w.workerId, w.pageNumber))
          = items.map (fun it => (it.workerId, it.pageNumber))
      ∧ (calculate_work_batches gc tc W P (some items)).totalBatches = 1
      ∧ (calculate_work_batches gc tc W P (some items)).totalWorkers
          = items.length := by
  have hlen : items.length > 0 := List.length_pos.2 h
  simp only [calculate_work_batches, if_pos hlen]
  refine ⟨?_, ?_, ?_, ?_⟩
  · simp
  · simp [List.map_map]
  · trivial
  · simp

theorem planner_reprocessing_mode_witness :
    (calculate_work_batches noCheckpoints 520 2 100 (some [⟨3, 5⟩])).totalBatches = 1
      ∧ (calculate_work_batches noCheckpoints 520 2 100
          (some [⟨3, 5⟩])).totalWorkers = 1 := by
  have h := planner_reprocessing_mode noCheckpoints 520 2 100 [⟨3, 5⟩] (by decide)
  exact ⟨h.2.2.1, by simpa using h.2.2.2⟩

/-- C9: the concrete instance `totalRecords = 520`, `pageSize = 250`,
`maxPagesPerSet = 20` (hardcoded), `workersPerBatch = 2` with empty
checkpoints yields `commentsPerSet = 5000`, one set, three pages, batch 0
holding pages 1 and 2 (workers 0 and 1) and batch 1 holding page 3
(worker 2), with expectedComments sequence [250, 250, 20]. -/
theorem planner_concrete_520 :
    calculate_work_batches noCheckpoints 520 2 250 none =
      { batches :=
          [{ batchId := 0
             workers :=
               [{ batchId := 0, workerId := 0, pageNumber := 1, pageSize := 250,
                  expectedComments := 250, setNumber := 1 },
                { batchId := 0, workerId := 1, pageNumber := 2, pageSize := 250,
                  expectedComments := 250, setNumber := 1 }]
             expectedWorkers := 2
             setNumber := 1 },
           { batchId := 1
             workers :=
               [{ batchId := 1, workerId := 2, pageNumber := 3, pageSize := 250,
                  expectedComments := 20, setNumber := 1 }]
             expectedWorkers := 1
             setNumber := 1 }]
        totalBatches := 2
        totalWorkers := 3
        workersPerBatch := 2
        totalComments := 520
        pageSize := 250
        expectedSets := 1
        commentsPerSet := 5000 } := by
  decide

/-! ## Planner behaviour under arbitrary checkpoint stores -/

/-- The worker counter advances on every page with positive expected count,
whether or not the page is skipped. -/
theorem plan_inner_snd (cpf : Nat → Nat → Option Checkpoint)
    (rem P s gb p : Nat) (acc : List WorkerRange × Nat) :
    (plan_inner cpf rem P s gb p acc).2
      = acc.2 + (if 0 < min P (rem - (p - 1) * P) then 1 else 0) := by
  by_cases h : 0 < min P (rem - (p - 1) * P)
  · simp only [plan_inner, if_pos h]
    split <;> rfl
  · simp only [plan_inner, if_neg h]
    rfl

/-- The inner fold's worker counter does not depend on the checkpoint store,
the batch id, or the worker lists accumulated so far. -/
theorem inner_fold_snd_eq (cpf₁ cpf₂ : Nat → Nat → Option Checkpoint)
    (rem P s gb₁ gb₂ base : Nat) :
    ∀ (w : Nat) (ws₁ ws₂ : List WorkerRange) (cw : Nat),
      ((List.range w).foldl
          (fun acc i => plan_inner cpf₁ rem P s gb₁ (base + i) acc) (ws₁, cw)).2
        = ((List.range w).foldl
            (fun acc i => plan_inner cpf₂ rem P s gb₂ (base + i) acc) (ws₂, cw)).2 := by
  intro w
  induction w with
  | zero => intro ws₁ ws₂ cw; rfl
  | succ n ih =>
    intro ws₁ ws₂ cw
    rw [List.range_succ]
    simp only [List.foldl_append, List.foldl_cons, List.foldl_nil]
    rw [plan_inner_snd, plan_inner_snd, ih ws₁ ws₂ cw]

/-- The worker counter after one batch is the inner fold's counter, in both
branches of the emptiness test. -/
theorem plan_batch_cw (cpf : Nat → Nat → Option Checkpoint)
    (rem P s W pages l : Nat) (st : PlanState) :
    (plan_batch cpf rem P s W pages l st).current_worker_id
      = ((List.range (min W (pages - l * W))).foldl
          (fun acc i =>
            plan_inner cpf rem P s st.global_batch_id (l * W + 1 + i) acc)
          ([], st.current_worker_id)).2 := by
  simp only [plan_batch]
  split <;> rfl

/-- The worker counter after the batch loop does not depend on the
checkpoint store. -/
theorem batch_fold_cw_eq (cpf₁ cpf₂ : Nat → Nat → Option Checkpoint)
    (rem P s W pages : Nat) :
    ∀ (l : List Nat) (st₁ st₂ : PlanState),
      st₁.current_worker_id = st₂.current_worker_id →
      (l.foldl (fun s' b => plan_batch cpf₁ rem P s W pages b s') st₁).current_worker_id
        = (l.foldl (fun s' b => plan_batch cpf₂ rem P s W pages b s') st₂).current_worker_id := by
  intro l
  induction l with
  | nil => intro st₁ st₂ h; exact h
  | cons hd tl ih =>
    intro st₁ st₂ h
    simp only [List.foldl_cons]
    apply ih
    rw [plan_batch_cw, plan_batch_cw, h]
    exact inner_fold_snd_eq cpf₁ cpf₂ rem P s st₁.global_batch_id
      st₂.global_batch_id (hd * W + 1) _ [] [] st₂.current_worker_id

/-- The worker counter after one set does not depend on the checkpoint
store. -/
theorem plan_set_cw_eq (cpf₁ cpf₂ : Nat → Nat → Option Checkpoint)
    (N W P s : Nat) (st₁ st₂ : PlanState)
    (h : st₁.current_worker_id = st₂.current_worker_id) :
    (plan_set cpf₁ N W P s st₁).current_worker_id
      = (plan_set cpf₂ N W P s st₂).current_worker_id := by
  simp only [plan_set]
  exact batch_fold_cw_eq cpf₁ cpf₂ _ P s W _ _ st₁ st₂ h

/-- The worker counter after the set loop does not depend on the checkpoint
store. -/
theorem set_fold_cw_eq (cpf₁ cpf₂ : Nat → Nat → Option Checkpoint)
    (N W P : Nat) :
    ∀ (l : List Nat) (st₁ st₂ : PlanState),
      st₁.current_worker_id = st₂.current_worker_id →
      (l.foldl (fun acc s0 => plan_set cpf₁ N W P (s0 + 1) acc) st₁).current_worker_id
        = (l.foldl (fun acc s0 => plan_set cpf₂ N W P (s0 + 1) acc) st₂).current_worker_id := by
  intro l
  induction l with
  | nil => intro st₁ st₂ h; exact h
  | cons hd tl ih =>
    intro st₁ st₂ h
    simp only [List.foldl_cons]
    exact ih _ _ (plan_set_cw_eq cpf₁ cpf₂ N W P (hd + 1) st₁ st₂ h)

/-- `totalWorkers` is independent of the checkpoint store. -/
theorem totalWorkers_indep (cpf : Nat → Nat → Option Checkpoint)
    (N W P : Nat) :
    (calculate_work_batches cpf N W P none).totalWorkers
      = (calculate_work_batches noCheckpoints N W P none).totalWorkers := by
  simp only [calculate_work_batches,
    calculate_work_batches.calculate_work_batches_normal]
  exact set_fold_cw_eq cpf noCheckpoints N W P _ _ _ rfl

/-- Every emitted item's checkpoint is not completed. -/
theorem plan_inner_mem (cpf : Nat → Nat → Option Checkpoint)
    (rem P s gb p : Nat) (acc : List WorkerRange × Nat) :
    ∀ i ∈ (plan_inner cpf rem P s gb p acc).1,
      i ∈ acc.1 ∨ checkpointCompleted (cpf i.workerId i.pageNumber) = false := by
  intro i hi
  simp only [plan_inner] at hi
  split at hi
  · split at hi
    · exact Or.inl hi
    · next hcc =>
        rw [List.mem_append, List.mem_singleton] at hi
        rcases hi with h | h
        · exact Or.inl h
        · subst h
          right
          simpa using hcc
  · exact Or.inl hi

/-- Items accumulated by the inner fold either were already present or have
a non-completed checkpoint. -/
theorem fold_inner_mem (cpf : Nat → Nat → Option Checkpoint)
    (rem P s gb base : Nat) :
    ∀ (l : List Nat) (acc : List WorkerRange × Nat),
      ∀ i ∈ (l.foldl (fun a j => plan_inner cpf rem P s gb (base + j) a) acc).1,
        i ∈ acc.1 ∨ checkpointCompleted (cpf i.workerId i.pageNumber) = false := by
  intro l
  induction l with
  | nil => intro acc i hi; exact Or.inl hi
  | cons hd tl ih =>
    intro acc i hi
    rcases ih _ i hi with h | h
    · exact plan_inner_mem cpf rem P s gb (base + hd) acc i h
    · exact Or.inr h

/-- Generic preservation of a per-item property along a fold over plan
states. -/
theorem fold_mem_invariant {β : Type} (step : PlanState → β → PlanState)
    (Q : WorkerRange → Prop)
    (hstep : ∀ st b, ∀ i ∈ ((step st b).batches.flatMap (·.workers)),
      i ∈ (st.batches.flatMap (·.workers)) ∨ Q i) :
    ∀ (l : List β) (st : PlanState),
      ∀ i ∈ ((l.foldl step st).batches.flatMap (·.workers)),
        i ∈ (st.batches.flatMap (·.workers)) ∨ Q i := by
  intro l
  induction l with
  | nil => intro st i hi; exact Or.inl hi
  | cons hd tl ih =>
    intro st i hi
    rcases ih (step st hd) i hi with h | h
    · exact hstep st hd i h
    · exact Or.inr h

/-- Items emitted by one batch either were already present or have a
non-completed checkpoint. -/
theorem plan_batch_mem (cpf : Nat → Nat → Option Checkpoint)
    (rem P s W pages l : Nat) (st : PlanState) :
    ∀ i ∈ ((plan_batch cpf rem P s W pages l st).batches.flatMap (·.workers)),
      i ∈ (st.batches.flatMap (·.workers))
        ∨ checkpointCompleted (cpf i.workerId i.pageNumber) = false := by
  intro i hi
  simp only [plan_batch] at hi
  split at hi
  · exact Or.inl hi
  · rw [List.flatMap_append, List.mem_append] at hi
    rcases hi with h | h
    · exact Or.inl h
    · simp only [List.flatMap_cons, List.flatMap_nil, List.append_nil] at h
      rcases fold_inner_mem cpf rem P s st.global_batch_id (l * W + 1)
          (List.range (min W (pages - l * W))) ([], st.current_worker_id) i h with
        h2 | h2
      · exact absurd h2 (List.not_mem_nil i)
      · exact Or.inr h2

/-- Items emitted by one whole set either were already present or have a
non-completed checkpoint. -/
theorem plan_set_mem (cpf : Nat → Nat → Option Checkpoint)
    (N W P s : Nat) (st : PlanState) :
    ∀ i ∈ ((plan_set cpf N W P s st).batches.flatMap (·.workers)),
      i ∈ (st.batches.flatMap (·.workers))
        ∨ checkpointCompleted (cpf i.workerId i.pageNumber) = false := by
  simp only [plan_set]
  exact fold_mem_invariant _ _ (fun st' b => plan_batch_mem cpf _ P s W _ b st') _ st

/-- No emitted item has a completed checkpoint. -/
theorem planner_mem_not_completed (cpf : Nat → Nat → Option Checkpoint)
    (N W P : Nat) :
    ∀ i ∈ allWorkers (calculate_work_batches cpf N W P none),
      checkpointCompleted (cpf i.workerId i.pageNumber) = false := by
  intro i hi
  simp only [calculate_work_batches,
    calculate_work_batches.calculate_work_batches_normal, allWorkers] at hi
  rcases fold_mem_invariant _
      (fun j => checkpointCompleted (cpf j.workerId j.pageNumber) = false)
      (fun st' s0 => plan_set_mem cpf N W P (s0 + 1) st') _
      (⟨[], 0, 0⟩ : PlanState) i hi with h | h
  · simp at h
  · exact h

/-- With every checkpoint completed, the inner fold emits nothing. -/
theorem plan_inner_fst_completed (cpf : Nat → Nat → Option Checkpoint)
    (hall : ∀ w p, checkpointCompleted (cpf w p) = true)
    (rem P s gb p : Nat) (acc : List WorkerRange × Nat) :
    (plan_inner cpf rem P s gb p acc).1 = acc.1 := by
  simp only [plan_inner]
  split
  · rw [hall acc.2 p, if_pos rfl]
  · rfl

/-- With every checkpoint completed, the inner fold leaves the worker list
unchanged. -/
theorem fold_inner_fst_completed (cpf : Nat → Nat → Option Checkpoint)
    (hall : ∀ w p, checkpointCompleted (cpf w p) = true)
    (rem P s gb base : Nat) :
    ∀ (l : List Nat) (acc : List WorkerRange × Nat),
      (l.foldl (fun a j => plan_inner cpf rem P s gb (base + j) a) acc).1 = acc.1 := by
  intro l
  induction l with
  | nil => intro acc; rfl
  | cons hd tl ih =>
    intro acc
    simp only [List.foldl_cons]
    rw [ih, plan_inner_fst_completed cpf hall]

/-- With every checkpoint completed, a batch appends nothing. -/
theorem plan_batch_completed (cpf : Nat → Nat → Option Checkpoint)
    (hall : ∀ w p, checkpointCompleted (cpf w p) = true)
    (rem P s W pages l : Nat) (st : PlanState) :
    (plan_batch cpf rem P s W pages l st).batches = st.batches := by
  simp only [plan_batch]
  rw [if_pos (fold_inner_fst_completed cpf hall rem P s st.global_batch_id
    (l * W + 1) (List.range (min W (pages - l * W))) ([], st.current_worker_id))]

/-- A fold whose step preserves the batch list preserves the batch list. -/
theorem fold_batches_preserved {β : Type} (step : PlanState → β → PlanState)
    (h : ∀ st b, (step st b).batches = st.batches) :
    ∀ (l : List β) (st : PlanState), (l.foldl step st).batches = st.batches := by
  intro l
  induction l with
  | nil => intro st; rfl
  | cons hd tl ih =>
    intro st
    simp only [List.foldl_cons]
    rw [ih, h]

/-- With every checkpoint completed, a set appends nothing. -/
theorem plan_set_completed (cpf : Nat → Nat → Option Checkpoint)
    (hall : ∀ w p, checkpointCompleted (cpf w p) = true)
    (N W P s : Nat) (st : PlanState) :
    (plan_set cpf N W P s st).batches = st.batches := by
  simp only [plan_set]
  exact fold_batches_preserved _
    (fun st' b => plan_batch_completed cpf hall _ P s W _ b st') _ st

/-- With every checkpoint completed, the planner emits no items at all. -/
theorem planner_completed_empty (cpf : Nat → Nat → Option Checkpoint)
    (hall : ∀ w p, checkpointCompleted (cpf w p) = true) (N W P : Nat) :
    allWorkers (calculate_work_batches cpf N W P none) = [] := by
  simp only [calculate_work_batches,
    calculate_work_batches.calculate_work_batches_normal, allWorkers]
  rw [fold_batches_preserved _
    (fun st s0 => plan_set_completed cpf hall N W P (s0 + 1) st) _
    (⟨[], 0, 0⟩ : PlanState)]
  rfl

/-- `totalWorkers` under empty checkpoints is the total page count
`ceil(N / P)`. -/
theorem totalWorkers_nc {P W : Nat} (hP : 0 < P) (hW : 0 < W) (N : Nat) :
    (calculate_work_batches noCheckpoints N W P none).totalWorkers = ceilDiv N P := by
  obtain ⟨_, htw⟩ := planner_nc_proj hP hW N
  rw [htw]
  have h1 := plannedProj_length hP N
  have h2 : (plannedProj N P).length = sumPagesUpTo N P (ceilDiv N (20 * P)) := by
    unfold plannedProj sumPagesUpTo
    rw [List.length_flatMap]
    congr 1
    apply List.map_congr_left
    intro s0 _
    simp [pagesInSet]
  omega

/-- C2: for every checkpoint store, every page whose checkpoint is marked
completed is omitted from the emitted items while the worker-id counter
still advances (`totalWorkers` always equals the full page count
`ceil(N/P)`); with every checkpoint completed, the planner emits zero items
yet `totalWorkers` equals the count of all pages. -/
theorem planner_checkpoint_skip {N P W : Nat} (hP : 0 < P) (hW : 0 < W) :
    (∀ cpf : Nat → Nat → Option Checkpoint,
        (∀ i ∈ allWorkers (calculate_work_batches cpf N W P none),
            checkpointCompleted (cpf i.workerId i.pageNumber) = false)
          ∧ (calculate_work_batches cpf N W P none).totalWorkers = ceilDiv N P)
      ∧ ∀ cpf : Nat → Nat → Option Checkpoint,
          (∀ w p, checkpointCompleted (cpf w p) = true) →
          allWorkers (calculate_work_batches cpf N W P none) = []
            ∧ (calculate_work_batches cpf N W P none).totalWorkers = ceilDiv N P := by
  constructor
  · intro cpf
    refine ⟨planner_mem_not_completed cpf N W P, ?_⟩
    rw [totalWorkers_indep cpf N W P]
    exact totalWorkers_nc hP hW N
  · intro cpf hall
    refine ⟨planner_completed_empty cpf hall N W P, ?_⟩
    rw [totalWorkers_indep cpf N W P]
    exact totalWorkers_nc hP hW N

theorem planner_checkpoint_skip_witness :
    allWorkers (calculate_work_batches (fun _ _ => some ⟨true, 0⟩) 520 2 250 none) = []
      ∧ (calculate_work_batches (fun _ _ => some ⟨true, 0⟩) 520 2 250 none).totalWorkers
          = ceilDiv 520 250 := by
  have h := planner_checkpoint_skip (N := 520) (P := 250) (W := 2)
    (by decide) (by decide)
  exact h.2 (fun _ _ => some ⟨true, 0⟩) (fun _ _ => rfl)

/-! ## Batch checker theorems -/

/-- Accumulating matches with list-append in a fold is filtering. -/
theorem foldl_filter_append {α β : Type} (f : α → β) (q : β → Prop)
    [DecidablePred q] (l : List α) :
    ∀ acc : List β,
      l.foldl (fun acc' a => if q (f a) then acc' ++ [f a] else acc') acc
        = acc ++ (l.map f).filter (fun b => decide (q b)) := by
  induction l with
  | nil => intro acc; simp
  | cons hd tl ih =>
    intro acc
    simp only [List.foldl_cons, List.map_cons, List.filter_cons]
    by_cases h : q (f hd)
    · rw [if_pos h, ih]
      simp [h]
    · rw [if_neg h, ih]
      simp [h]

/-- `check_for_incomplete_items` filters the payloads by the incompleteness
test. -/
theorem check_for_incomplete_items_eq (brs : List BatchResult) :
    check_for_incomplete_items brs
      = (brs.map (fun r => r.payload.getD [])).filter (fun p =>
          decide (pget p "isComplete" = some (JVal.bool false)
            ∨ pget p "needsReprocessing" = some (JVal.bool true))) := by
  unfold check_for_incomplete_items
  split
  · next h => subst h; rfl
  · next h =>
    simpa using foldl_filter_append (fun r : BatchResult => r.payload.getD [])
      (fun p => pget p "isComplete" = some (JVal.bool false)
        ∨ pget p "needsReprocessing" = some (JVal.bool true)) brs []

/-- C3: the batch-checker returns the reprocessing record (hasMoreBatches
true, needsReprocessing true, incompleteItems exactly the flagged payloads,
currentBatch unchanged) when any result is incomplete or flagged for
reprocessing, and otherwise needsReprocessing false with hasMoreBatches
equal to `currentBatch + 1 < totalBatches`. -/
theorem batch_checker_spec (cb tb : Int) (brs : List BatchResult) :
    batch_checker_handler (some cb) (some tb) (some brs)
      = (if (brs.map (fun r => r.payload.getD [])).filter (fun p =>
              decide (pget p "isComplete" = some (JVal.bool false)
                ∨ pget p "needsReprocessing" = some (JVal.bool true))) = [] then
          { hasMoreBatches := decide (cb + 1 < tb)
            needsReprocessing := false
            incompleteItems := none
            currentBatch := none }
        else
          { hasMoreBatches := true
            needsReprocessing := true
            incompleteItems := some ((brs.map (fun r => r.payload.getD [])).filter
              (fun p => decide (pget p "isComplete" = some (JVal.bool false)
                ∨ pget p "needsReprocessing" = some (JVal.bool true))))
            currentBatch := some cb }) := by
  by_cases h : (brs.map (fun r => r.payload.getD [])).filter (fun p =>
      decide (pget p "isComplete" = some (JVal.bool false)
        ∨ pget p "needsReprocessing" = some (JVal.bool true))) = []
  · have hlen : ¬ ((check_for_incomplete_items brs).length > 0) := by
      rw [check_for_incomplete_items_eq, h]
      simp
    simp only [batch_checker_handler, Option.getD_some, if_neg hlen, if_pos h]
  · have hlen : ((brs.map (fun r => r.payload.getD [])).filter (fun p =>
        decide (pget p "isComplete" = some (JVal.bool false)
          ∨ pget p "needsReprocessing" = some (JVal.bool true)))).length > 0 :=
      List.length_pos.2 h
    simp only [batch_checker_handler, Option.getD_some,
      check_for_incomplete_items_eq, if_pos hlen, if_neg h]

/-- C10: a payload is classified incomplete exactly when it comes from a
result and its `isComplete` is the value `False` or its `needsReprocessing`
is the value `True`; a missing Payload, a missing `isComplete`, a `None`
value, or any other non-`False` value never triggers reprocessing. -/
theorem incomplete_items_characterization (brs : List BatchResult) (p : Payload) :
    p ∈ check_for_incomplete_items brs
      ↔ ∃ r ∈ brs, r.payload.getD [] = p
          ∧ (pget p "isComplete" = some (JVal.bool false)
            ∨ pget p "needsReprocessing" = some (JVal.bool true)) := by
  rw [check_for_incomplete_items_eq, List.mem_filter]
  constructor
  · rintro ⟨hmem, hcond⟩
    rw [List.mem_map] at hmem
    obtain ⟨r, hr, he⟩ := hmem
    exact ⟨r, hr, he, by simpa using hcond⟩
  · rintro ⟨r, hr, he, hcond⟩
    exact ⟨List.mem_map.2 ⟨r, hr, he⟩, by simpa using hcond⟩

/-! ## Processor worker theorems -/

/-- A 429 on the first attempt raises `RateLimitReached` immediately: the
retry loop is never entered, whatever the later attempts would return. -/
theorem make_request_429 {α : Type} (attempts : Nat → ReqOutcome α)
    (h : attempts 0 = .status429) :
    make_request attempts = .error .rateLimited := by
  have e : make_request attempts
      = (match attempts 0 with
        | .ok v => Except.ok v
        | .status429 => Except.error FetchErr.rateLimited
        | .statusOther => Except.error FetchErr.other
        | .httpError =>
          if 0 < 3 - 1 then make_request_loop attempts 3 2 1
          else Except.error FetchErr.other) := rfl
  rw [e, h]

/-- The detail loop stops at the first rate-limited comment: everything
after it is never fetched, and the result is exactly the state accumulated
before it. -/
theorem fetch_details_stop (dA : String → Nat → ReqOutcome String)
    (c : Stub) (post : List Stub)
    (hrl : make_request (dA c.id) = .error .rateLimited) :
    ∀ (pre : List Stub) (acc : List String) (lpd : Option String),
      fetch_details dA (pre ++ c :: post) acc lpd = fetch_details dA pre acc lpd := by
  intro pre
  induction pre with
  | nil =>
    intro acc lpd
    simp only [List.nil_append, fetch_details, hrl]
  | cons p pre' ih =>
    intro acc lpd
    simp only [List.cons_append, fetch_details]
    cases hmk : make_request (dA p.id) with
    | ok d => exact ih _ _
    | error e =>
      cases e with
      | rateLimited => rfl
      | other => exact ih _ _

/-- No entry of `okDates` is the empty string. -/
theorem okDates_ne (dA : String → Nat → ReqOutcome String) (stubs : List Stub) :
    ∀ d ∈ okDates dA stubs, d ≠ "" := by
  intro d hd
  unfold okDates at hd
  rw [List.mem_filterMap] at hd
  obtain ⟨c, _, hc⟩ := hd
  cases hmk : make_request (dA c.id) with
  | ok v =>
    cases hdate : c.lastModifiedDate with
    | some d0 =>
      simp only [hmk, hdate] at hc
      split at hc
      · next hb =>
        cases hc
        simpa using hb
      · cases hc
    | none => simp [hmk, hdate] at hc
  | error e => simp [hmk] at hc

/-- The detail loop's running marker is the fold of the update rule over
the observed dates, provided no detail fetch is rate limited. -/
theorem fetch_details_max (dA : String → Nat → ReqOutcome String) :
    ∀ (stubs : List Stub) (acc : List String) (lpd : Option String),
      (∀ c ∈ stubs, make_request (dA c.id) ≠ .error .rateLimited) →
      (fetch_details dA stubs acc lpd).2
        = (okDates dA stubs).foldl
            (fun a d => if !truthy a || decide (d > a.getD "") then some d else a)
            lpd := by
  intro stubs
  induction stubs with
  | nil => intro acc lpd _; rfl
  | cons c rest ih =>
    intro acc lpd hno
    have hnoc : make_request (dA c.id) ≠ .error .rateLimited := hno c (by simp)
    have hnorest : ∀ x ∈ rest, make_request (dA x.id) ≠ .error .rateLimited :=
      fun x hx => hno x (by simp [hx])
    cases hmk : make_request (dA c.id) with
    | ok d =>
      cases hdate : c.lastModifiedDate with
      | none =>
        simp only [fetch_details, hmk, hdate, okDates, List.filterMap_cons]
        simp only [truthy, Bool.false_eq_true, if_false]
        exact ih (acc ++ [d]) lpd hnorest
      | some d0 =>
        by_cases h0 : d0 = ""
        · subst h0
          simp only [fetch_details, hmk, hdate, okDates, List.filterMap_cons]
          simp only [truthy, bne_self_eq_false, Bool.false_eq_true, if_false]
          exact ih (acc ++ [d]) lpd hnorest
        · have hb : (d0 != "") = true := by simp [h0]
          simp only [fetch_details, hmk, hdate, okDates, List.filterMap_cons, hb,
            truthy, if_true, List.foldl_cons, Option.getD_some]
          rw [ih (acc ++ [d]) _ hnorest]
          rfl
    | error e =>
      cases e with
      | rateLimited => exact absurd hmk hnoc
      | other =>
        simp only [fetch_details, hmk, okDates, List.filterMap_cons]
        exact ih acc lpd hnorest

/-- Folding the update rule from a non-empty current maximum computes the
running maximum. -/
theorem foldl_upd_some (rest : List String) :
    ∀ a : String, a ≠ "" → (∀ d ∈ rest, d ≠ "") →
      rest.foldl
          (fun acc d => if !truthy acc || decide (d > acc.getD "") then some d else acc)
          (some a)
        = some (rest.foldl max a) := by
  induction rest with
  | nil => intro a _ _; rfl
  | cons d rest' ih =>
    intro a ha hrest
    simp only [List.foldl_cons]
    have ht : truthy (some a) = true := by simp [truthy, ha]
    have hupd : (if !truthy (some a) || decide (d > (some a).getD "")
          then some d else some a)
        = some (max a d) := by
      rw [ht]
      simp only [Bool.not_true, Bool.false_or, Option.getD_some]
      by_cases h : a < d
      · rw [if_pos (decide_eq_true h), max_eq_right h.le]
      · rw [if_neg (by simpa using h), max_eq_left (not_lt.1 h)]
    rw [hupd]
    have hmax : max a d ≠ "" := by
      rcases max_choice a d with h | h
      · rw [h]; exact ha
      · rw [h]; exact hrest d (by simp)
    exact ih (max a d) hmax (fun x hx => hrest x (by simp [hx]))

/-- Folding the update rule from `None` over non-empty dates computes the
maximum of the list. -/
theorem foldl_upd_max (ds : List String) (hne : ∀ d ∈ ds, d ≠ "") :
    ds.foldl
        (fun acc d => if !truthy acc || decide (d > acc.getD "") then some d else acc)
        none
      = ds.max? := by
  cases ds with
  | nil => rfl
  | cons d rest =>
    simp only [List.foldl_cons]
    have h1 : (if !truthy (none : Option String)
          || decide (d > (none : Option String).getD "") then some d else none)
        = some d := by
      simp [truthy]
    rw [h1, foldl_upd_some rest d (hne d (by simp))
      (fun x hx => hne x (by simp [hx]))]
    rfl

/-- C5 counterexample: with a successful page fetch of two records and a
rate limit on the second record's detail fetch, the worker stops and keeps
the one fetched record, but reports `rateLimited = false` and
`isComplete = true` — not `rateLimited = true, isComplete = false` as the
claim states. -/
theorem worker_rate_limit_report_cex :
    processor_handler
        (fun _ => .ok [⟨"c1", some "2024-01-01"⟩, ⟨"c2", some "2024-01-02"⟩])
        (fun cid _ => if cid == "c1" then .ok "d1" else .status429)
        3 5 none
      = .ok { workerId := 3, pageNumber := 5, processedComments := 1,
              rateLimited := false, isComplete := true,
              lastProcessedDate := none } := by
  rfl

/-- C5 (amended): a 429 is never retried; a rate limit on the page fetch
makes the worker report `rateLimited = true, isComplete = false` with zero
records; a rate limit on a per-record detail fetch stops the loop
immediately, keeping the records already fetched, but the worker then
reports `rateLimited = false` and `isComplete = true`. -/
theorem worker_rate_limit_behavior :
    (∀ (α : Type) (attempts : Nat → ReqOutcome α),
        attempts 0 = .status429 → make_request attempts = .error .rateLimited)
      ∧ (∀ (pA : Nat → ReqOutcome (List Stub))
          (dA : String → Nat → ReqOutcome String) (wid pn : Nat)
          (lmd : Option String),
          pA 0 = .status429 →
          processor_handler pA dA wid pn lmd
            = .ok { workerId := wid, pageNumber := pn, processedComments := 0,
                    rateLimited := true, isComplete := false,
                    lastProcessedDate := if pn ≠ 20 then lmd else none })
      ∧ (∀ (dA : String → Nat → ReqOutcome String) (c : Stub)
          (pre post : List Stub) (acc : List String) (lpd : Option String),
          make_request (dA c.id) = .error .rateLimited →
          fetch_details dA (pre ++ c :: post) acc lpd
            = fetch_details dA pre acc lpd)
      ∧ (∀ (pA : Nat → ReqOutcome (List Stub))
          (dA : String → Nat → ReqOutcome String) (wid pn : Nat)
          (lmd : Option String) (c : Stub) (pre post : List Stub),
          make_request pA = .ok (pre ++ c :: post) →
          make_request (dA c.id) = .error .rateLimited →
          processor_handler pA dA wid pn lmd
            = .ok { workerId := wid, pageNumber := pn,
                    processedComments := (fetch_details dA pre [] none).1.length,
                    rateLimited := false, isComplete := true,
                    lastProcessedDate := if pn ≠ 20 then lmd
                      else (fetch_details dA pre [] none).2 }) := by
  refine ⟨fun α attempts h => make_request_429 attempts h, ?_, ?_, ?_⟩
  · intro pA dA wid pn lmd h
    have hrl := make_request_429 pA h
    simp only [processor_handler, fetch_comments_page, hrl]
  · exact fun dA c pre post acc lpd h => fetch_details_stop dA c post h pre acc lpd
  · intro pA dA wid pn lmd c pre post hpage hrl
    have hfetch : fetch_comments_page pA dA
        = .ok (fetch_details dA pre [] none) := by
      simp only [fetch_comments_page, hpage]
      rw [fetch_details_stop dA c post hrl pre [] none]
    simp only [processor_handler, hfetch]

theorem worker_rate_limit_behavior_witness :
    processor_handler (fun _ => .status429) (fun _ _ => .ok "d") 3 5 (some "2020")
        = .ok { workerId := 3, pageNumber := 5, processedComments := 0,
                rateLimited := true, isComplete := false,
                lastProcessedDate := if (5 : Nat) ≠ 20 then some "2020" else none }
      ∧ fetch_details (fun _ _ => .status429)
            (([] : List Stub) ++ ⟨"c1", none⟩ :: []) [] none
          = fetch_details (fun _ _ => .status429) [] [] none := by
  have h := worker_rate_limit_behavior
  exact ⟨h.2.1 (fun _ => .status429) (fun _ _ => .ok "d") 3 5 (some "2020") rfl,
    h.2.2.1 (fun _ _ => .status429) ⟨"c1", none⟩ [] [] [] none rfl⟩

/-- C6 counterexample: on page 5 with input marker "2020" and one fetched
record whose marker is "2021", the worker reports lastProcessedDate =
"2020" (the caller-supplied input marker), not the maximum observed marker
"2021". -/
theorem resume_marker_override_cex :
    processor_handler (fun _ => .ok [⟨"c1", some "2021"⟩]) (fun _ _ => .ok "d1")
        1 5 (some "2020")
      = .ok { workerId := 1, pageNumber := 5, processedComments := 1,
              rateLimited := false, isComplete := true,
              lastProcessedDate := some "2020" }
      ∧ okDates (fun _ _ => .ok "d1") [⟨"c1", some "2021"⟩] = ["2021"]
      ∧ (["2021"] : List String).max? = some "2021" := by
  refine ⟨?_, ?_, ?_⟩ <;> rfl

/-- C6 (amended): the marker computed by the detail loop is the maximum
observed per-record marker, and the handler reports it only when
`pageNumber = 20`; for every other page number the handler reports the
caller-supplied input marker instead. -/
theorem resume_marker_behavior
    (pA : Nat → ReqOutcome (List Stub)) (dA : String → Nat → ReqOutcome String)
    (wid : Nat) (lmd : Option String) (stubs : List Stub)
    (hpage : make_request pA = .ok stubs)
    (hno : ∀ c ∈ stubs, make_request (dA c.id) ≠ .error .rateLimited) :
    processor_handler pA dA wid 20 lmd
        = .ok { workerId := wid, pageNumber := 20,
                processedComments := (fetch_details dA stubs [] none).1.length,
                rateLimited := false, isComplete := true,
                lastProcessedDate := (okDates dA stubs).max? }
      ∧ ∀ pn, pn ≠ 20 →
          processor_handler pA dA wid pn lmd
            = .ok { workerId := wid, pageNumber := pn,
                    processedComments := (fetch_details dA stubs [] none).1.length,
                    rateLimited := false, isComplete := true,
                    lastProcessedDate := lmd } := by
  have hfetch : fetch_comments_page pA dA = .ok (fetch_details dA stubs [] none) := by
    unfold fetch_comments_page
    rw [hpage]
  constructor
  · simp only [processor_handler, hfetch]
    rw [if_neg (by omega), fetch_details_max dA stubs [] none hno,
      foldl_upd_max _ (okDates_ne dA stubs)]
  · intro pn hpn
    simp only [processor_handler, hfetch]
    rw [if_pos hpn]

theorem resume_marker_behavior_witness :
    processor_handler (fun _ => .ok [⟨"c1", some "2021"⟩]) (fun _ _ => .ok "d1")
        1 20 (some "2020")
      = .ok { workerId := 1, pageNumber := 20, processedComments := 1,
              rateLimited := false, isComplete := true,
              lastProcessedDate := some "2021" } := by
  have h := resume_marker_behavior (fun _ => .ok [⟨"c1", some "2021"⟩])
    (fun _ _ => .ok "d1") 1 (some "2020") [⟨"c1", some "2021"⟩] rfl
    (by
      intro c hc
      simp only [List.mem_singleton] at hc
      subst hc
      intro hbad
      simp [make_request, make_request_loop] at hbad)
  rw [h.1]
  rfl

/-! ## Combiner theorems -/

/-- Two sorted lists that are permutations of each other and whose
`(page, worker)` keys are pairwise distinct are equal. -/
theorem sorted_perm_nodup_key_eq :
    ∀ (l₁ l₂ : List ContentFile),
      l₁.Perm l₂ → List.Sorted pwLe l₁ → List.Sorted pwLe l₂ →
      (l₁.map (fun c => (c.page, c.worker))).Nodup → l₁ = l₂ := by
  intro l₁
  induction l₁ with
  | nil => intro l₂ hperm _ _ _; exact hperm.nil_eq
  | cons a t ih =>
    intro l₂ hperm hs₁ hs₂ hnd
    cases l₂ with
    | nil => exact absurd hperm.symm.nil_eq (by simp)
    | cons b t₂ =>
      by_cases hab : a = b
      · subst hab
        rw [ih t₂ hperm.cons_inv hs₁.of_cons hs₂.of_cons
          (by simpa using (List.nodup_cons.1 hnd).2)]
      · have hbt : b ∈ t := by
          have hb₁ : b ∈ a :: t := hperm.mem_iff.2 (by simp)
          rcases List.mem_cons.1 hb₁ with h | h
          · exact absurd h.symm hab
          · exact h
        have hat₂ : a ∈ t₂ := by
          have ha₂ : a ∈ b :: t₂ := hperm.mem_iff.1 (by simp)
          rcases List.mem_cons.1 ha₂ with h | h
          · exact absurd h hab
          · exact h
        have h1 : pwLe a b := (List.sorted_cons.1 hs₁).1 b hbt
        have h2 : pwLe b a := (List.sorted_cons.1 hs₂).1 a hat₂
        have hkey : a.page = b.page ∧ a.worker = b.worker := by
          unfold pwLe at h1 h2
          omega
        have hmem : (a.page, a.worker) ∈ t.map (fun c => (c.page, c.worker)) := by
          rw [List.mem_map]
          exact ⟨b, hbt, by simp [hkey.1, hkey.2]⟩
        exact absurd hmem (List.nodup_cons.1 hnd).1

/-- C7 counterexample: two shards, one from set 1 (worker 19, page 20) and
one from set 2 (worker 20, page 1) of the planner run with
`totalRecords = 21`, `pageSize = 1`. The combiner sorts the set-2 shard
before the set-1 shard, because it orders by `(page, worker)` parsed from
the filenames and no set number exists there — refuting the claimed
`(setNumber, pageNumber, workerId)` ascending order. -/
theorem shard_sort_set_order_cex :
    get_content_files
        [⟨"DOC/comments/worker_19_page_20_t1.csv", 10⟩,
         ⟨"DOC/comments/worker_20_page_1_t1.csv", 10⟩]
      = [⟨"DOC/comments/worker_20_page_1_t1.csv", 20, 1, 10⟩,
         ⟨"DOC/comments/worker_19_page_20_t1.csv", 19, 20, 10⟩]
      ∧ ((allWorkers (calculate_work_batches noCheckpoints 21 2 1 none)).find?
          (fun i => i.workerId == 20)).map (·.setNumber) = some 2
      ∧ ((allWorkers (calculate_work_batches noCheckpoints 21 2 1 none)).find?
          (fun i => i.workerId == 19)).map (·.setNumber) = some 1 := by
  refine ⟨?_, ?_, ?_⟩ <;> decide

/-- C7 (amended): the Aggregator sorts shards by
`(pageNumber ascending, workerId ascending)` as parsed from the shard
filenames (no set number is available in them), and for listings whose
parsed `(page, worker)` keys are pairwise distinct the result is
independent of the order in which storage lists the shards. -/
theorem shard_sort_page_worker :
    (∀ objects : List S3Object,
        List.Sorted pwLe (get_content_files objects)
          ∧ (get_content_files objects).Perm (objects.filterMap parseContentFile))
      ∧ ∀ objects₁ objects₂ : List S3Object,
          (objects₁.filterMap parseContentFile).Perm
              (objects₂.filterMap parseContentFile) →
          ((objects₁.filterMap parseContentFile).map
              (fun c => (c.page, c.worker))).Nodup →
          get_content_files objects₁ = get_content_files objects₂ := by
  constructor
  · intro objects
    exact ⟨List.sorted_insertionSort pwLe _, List.perm_insertionSort pwLe _⟩
  · intro o₁ o₂ hperm hnd
    apply sorted_perm_nodup_key_eq
    · exact ((List.perm_insertionSort pwLe _).trans hperm).trans
        (List.perm_insertionSort pwLe _).symm
    · exact List.sorted_insertionSort pwLe _
    · exact List.sorted_insertionSort pwLe _
    · exact (((List.perm_insertionSort pwLe _).map _).nodup_iff).2 hnd

theorem shard_sort_page_worker_witness :
    get_content_files
        [⟨"DOC/comments/worker_19_page_20_t1.csv", 10⟩,
         ⟨"DOC/comments/worker_20_page_1_t1.csv", 10⟩]
      = get_content_files
        [⟨"DOC/comments/worker_20_page_1_t1.csv", 10⟩,
         ⟨"DOC/comments/worker_19_page_20_t1.csv", 10⟩] := by
  have h := shard_sort_page_worker
  exact h.2 _ _ (by decide) (by decide)

/-- With a duplicate-free header and a row of matching length, projecting
the row through the header lookup reproduces the row. -/
theorem rowLookup_self :
    ∀ (H r : List String), H.Nodup → r.length = H.length →
      H.map (rowLookup H r) = r := by
  intro H
  induction H with
  | nil =>
    intro r _ hlen
    cases r with
    | nil => rfl
    | cons v r' => simp at hlen
  | cons h H' ih =>
    intro r hnd hlen
    cases r with
    | nil => simp at hlen
    | cons v r' =>
      simp only [List.map_cons]
      have hhead : rowLookup (h :: H') (v :: r') h = v := by
        simp [rowLookup]
      have htail : H'.map (rowLookup (h :: H') (v :: r')) = H'.map (rowLookup H' r') := by
        apply List.map_congr_left
        intro f hf
        have hne : (h == f) = false := by
          have : h ≠ f := fun he => (List.nodup_cons.1 hnd).1 (he ▸ hf)
          simp [this]
        have hz : (h :: H').zip (v :: r') = (h, v) :: H'.zip r' := rfl
        simp only [rowLookup, hz, List.find?_cons, hne]
      rw [hhead, htail, ih r' (List.nodup_cons.1 hnd).2 (by simpa using hlen)]

/-- Writing a shard whose header equals the writer's fieldnames writes
every row unchanged. -/
theorem writeRows_id (H : List String) (hnd : H.Nodup) :
    ∀ rows : List (List String), (∀ r ∈ rows, r.length = H.length) →
      writeRows H H rows = rows := by
  intro rows
  induction rows with
  | nil => intro _; rfl
  | cons r rs ih =>
    intro hlen
    have hok : writerow H H r = .ok r := by
      unfold writerow
      rw [if_pos]
      · rw [rowLookup_self H r hnd (hlen r (by simp))]
      · simp
    simp only [writeRows, hok]
    rw [ih (fun x hx => hlen x (by simp [hx]))]

/-- Once set, the writer's fieldnames never change. -/
theorem combine_fieldnames_stable (F : List String) :
    ∀ (files : List CSVFile) (out : List (List String)) (tot : Nat),
      (files.foldl (fun (st : CombineState) (f : CSVFile) =>
          let F' := st.fieldnames.getD f.header
          { fieldnames := some F'
            out_rows := st.out_rows ++ writeRows F' f.header f.rows
            total_rows := st.total_rows + f.rows.length })
        (⟨some F, out, tot⟩ : CombineState)).fieldnames = some F := by
  intro files
  induction files with
  | nil => intro out tot; rfl
  | cons f fs ih =>
    intro out tot
    simp only [List.foldl_cons, Option.getD_some]
    exact ih _ _

/-- Folding shards whose headers all equal the fixed fieldnames
concatenates every row in order. -/
theorem combine_fold_same_header (H : List String) (hnd : H.Nodup) :
    ∀ (files : List CSVFile) (out : List (List String)) (tot : Nat),
      (∀ f ∈ files, f.header = H) →
      (∀ f ∈ files, ∀ r ∈ f.rows, r.length = H.length) →
      files.foldl (fun (st : CombineState) (f : CSVFile) =>
          let F := st.fieldnames.getD f.header
          { fieldnames := some F
            out_rows := st.out_rows ++ writeRows F f.header f.rows
            total_rows := st.total_rows + f.rows.length })
        (⟨some H, out, tot⟩ : CombineState)
        = ⟨some H, out ++ (files.map (·.rows)).flatten,
           tot + (files.map (·.rows.length)).sum⟩ := by
  intro files
  induction files with
  | nil => intro out tot _ _; simp
  | cons f fs ih =>
    intro out tot hh hr
    have hfh : f.header = H := hh f (by simp)
    simp only [List.foldl_cons, Option.getD_some]
    rw [hfh, writeRows_id H hnd f.rows (hr f (by simp))]
    rw [ih (out ++ f.rows) (tot + f.rows.length)
      (fun x hx => hh x (by simp [hx])) (fun x hx => hr x (by simp [hx]))]
    simp [List.append_assoc, Nat.add_assoc]

/-- C8 counterexample: merging a shard with header `[a, b]` and then a
shard with header `[a, c]` completes without any error: the mismatched
shard's row is silently skipped (yet still counted in the row total),
instead of the merge failing loudly. -/
theorem combine_header_mismatch_cex :
    combine_csv_files
        [⟨["a", "b"], [["1", "2"]]⟩, ⟨["a", "c"], [["3", "4"]]⟩]
      = ⟨some ["a", "b"], [["1", "2"]], 2⟩ := by
  decide

/-- C8 (amended): the header of the first shard defines the output schema;
shards whose headers equal it are merged fully, in order; a shard whose
header differs by an extra column has its rows silently skipped (the
per-file exception handler swallows the `ValueError`), still counted in
the returned row total, and the merge never aborts. -/
theorem combine_header_behavior :
    (∀ (f₀ : CSVFile) (rest : List CSVFile),
        (combine_csv_files (f₀ :: rest)).fieldnames = some f₀.header)
      ∧ ∀ (H : List String) (f₀ : CSVFile) (rest : List CSVFile),
          f₀.header = H →
          (∀ f ∈ rest, f.header = H) →
          H.Nodup →
          (∀ f ∈ f₀ :: rest, ∀ r ∈ f.rows, r.length = H.length) →
          combine_csv_files (f₀ :: rest)
            = ⟨some H, ((f₀ :: rest).map (·.rows)).flatten,
               ((f₀ :: rest).map (·.rows.length)).sum⟩ := by
  constructor
  · intro f₀ rest
    simp only [combine_csv_files, List.foldl_cons, Option.getD_none]
    exact combine_fieldnames_stable f₀.header rest _ _
  · intro H f₀ rest hf₀ hrest hnd hlen
    simp only [combine_csv_files, List.foldl_cons, Option.getD_none]
    rw [hf₀, writeRows_id H hnd f₀.rows (hlen f₀ (by simp))]
    rw [combine_fold_same_header H hnd rest (([] : List (List String)) ++ f₀.rows)
      (0 + f₀.rows.length) hrest (fun x hx => hlen x (by simp [hx]))]
    simp

theorem combine_header_behavior_witness :
    combine_csv_files
        [⟨["a", "b"], [["1", "2"]]⟩, ⟨["a", "b"], [["3", "4"]]⟩]
      = ⟨some ["a", "b"], [["1", "2"], ["3", "4"]], 2⟩ := by
  have h := combine_header_behavior
  rw [h.2 ["a", "b"] ⟨["a", "b"], [["1", "2"]]⟩ [⟨["a", "b"], [["3", "4"]]⟩]
    rfl (by decide) (by decide) (by decide)]
  decide
